import Mathlib

/-!
Shallow embedding of the motif classification engine of this repository
(`src/replica/cook.py`).

The chess rules engine (python-chess) is an external collaborator of the
repository: the specification treats a position as "a pure value type"
exposing attack / pin / legal-move / check queries.  Accordingly `Board`
below carries the piece placement together with those oracle queries as
data, and the derived queries (`piece_map`, `pieces`, `king`, `checkers`,
`is_check`, `is_checkmate`) are computed exactly as python-chess computes
them from that interface.  The classifier `cook` and every motif detector
are translated statement by statement from `src/replica/cook.py`; fallible
operations (list indexing, `assert`, indexing a value table with a missing
piece) live in `Except String`.  The files `model.py` and `util.py` are not
part of the sources, so the data model and the board-query primitives are
modelled from the specification (sections 3 and 4.1); each such definition
says so in its doc comment.
-/

namespace Cook

/-- python-chess piece-kind numbering (PAWN=1 ... KING=6). -/
abbrev PieceType := Nat

def PAWN : PieceType := 1

def KNIGHT : PieceType := 2

def BISHOP : PieceType := 3

def ROOK : PieceType := 4

def QUEEN : PieceType := 5

def KING : PieceType := 6

/-- Colors: WHITE = true, BLACK = false, as in python-chess. -/
def WHITE : Bool := true

def BLACK : Bool := false

structure Piece where
  piece_type : PieceType
  color : Bool
deriving DecidableEq, Repr

structure Move where
  from_square : Nat
  to_square : Nat
  promotion : Option PieceType
deriving DecidableEq, Repr

/-- python-chess `square_file`. -/
def square_file (sq : Nat) : Nat := sq % 8

/-- python-chess `square_rank`. -/
def square_rank (sq : Nat) : Nat := sq / 8

/-- python-chess `square_distance` (Chebyshev distance). -/
def square_distance (a b : Nat) : Nat :=
  max ((square_file a : Int) - (square_file b : Int)).natAbs
    ((square_rank a : Int) - (square_rank b : Int)).natAbs

/-- python-chess `chess.square file rank`. -/
def chess_square (f r : Nat) : Nat := 8 * r + f

/-- python-chess `SquareSet.between a b`: the squares strictly between `a`
and `b` when they share a rank, file or diagonal, and the empty set
otherwise. -/
def between (a b : Nat) : List Nat :=
  let df : Int := (square_file b : Int) - (square_file a : Int)
  let dr : Int := (square_rank b : Int) - (square_rank a : Int)
  if df = 0 ∧ dr = 0 then []
  else if df = 0 ∨ dr = 0 ∨ df.natAbs = dr.natAbs then
    ((List.range (max df.natAbs dr.natAbs)).drop 1).map
      (fun k => ((a : Int) + (k : Int) * (df.sign + 8 * dr.sign)).toNat)
  else []

/-- The interface of the external rules engine for one position, per the
specification: piece placement, side to move, and the attack / pin /
legal-move oracles.  `pin c sq = none` is the "unpinned" sentinel
(python-chess returns `BB_ALL` there). -/
structure Board where
  piece_at : Nat → Option Piece
  turn : Bool
  attackers : Bool → Nat → List Nat
  attacks : Nat → List Nat
  pin : Bool → Nat → Option (List Nat)
  legal_moves : List Move
  pseudo_legal_moves : List Move

/-- python-chess `Board.piece_map()` restricted to the 64 squares. -/
def Board.piece_map (b : Board) : List (Nat × Piece) :=
  (List.range 64).filterMap (fun s => (b.piece_at s).map (fun p => (s, p)))

/-- python-chess `Board.pieces piece_type color`: the squares holding that
piece. -/
def Board.pieces (b : Board) (pt : PieceType) (c : Bool) : List Nat :=
  (List.range 64).filter (fun s => b.piece_at s == some ⟨pt, c⟩)

/-- python-chess `Board.king color`: the square of that color's king. -/
def Board.king (b : Board) (c : Bool) : Option Nat :=
  (List.range 64).find? (fun s => b.piece_at s == some ⟨KING, c⟩)

/-- python-chess `Board.checkers()`: attackers of the side-to-move king. -/
def Board.checkers (b : Board) : List Nat :=
  match b.king b.turn with
  | none => []
  | some k => b.attackers (!b.turn) k

/-- python-chess `Board.is_check()`. -/
def Board.is_check (b : Board) : Bool := !b.checkers.isEmpty

/-- python-chess `Board.is_checkmate()`: in check with no legal moves. -/
def Board.is_checkmate (b : Board) : Bool := b.is_check && b.legal_moves.isEmpty

/-- python-chess `Board.legal_moves.count()`. -/
def Board.legal_moves_count (b : Board) : Nat := b.legal_moves.length

/-- python-chess `Board.apply_transform chess.flip_horizontal`: mirror the
files (square `sq` goes to `sq XOR 7`); every query is conjugated by that
bijection. -/
def Board.apply_flip_horizontal (b : Board) : Board where
  piece_at := fun s => b.piece_at (s ^^^ 7)
  turn := b.turn
  attackers := fun c s => (b.attackers c (s ^^^ 7)).map (fun a => a ^^^ 7)
  attacks := fun s => (b.attacks (s ^^^ 7)).map (fun a => a ^^^ 7)
  pin := fun c s => (b.pin c (s ^^^ 7)).map (List.map (fun a => a ^^^ 7))
  legal_moves := b.legal_moves.map
    (fun m => ⟨m.from_square ^^^ 7, m.to_square ^^^ 7, m.promotion⟩)
  pseudo_legal_moves := b.pseudo_legal_moves.map
    (fun m => ⟨m.from_square ^^^ 7, m.to_square ^^^ 7, m.promotion⟩)

/-- python-chess `Board.mirror()`: flip the board vertically (square `sq`
goes to `sq XOR 56`) and swap colors; every query is conjugated by that
bijection. -/
def Board.mirror (b : Board) : Board where
  piece_at := fun s => (b.piece_at (s ^^^ 56)).map (fun p => ⟨p.piece_type, !p.color⟩)
  turn := !b.turn
  attackers := fun c s => (b.attackers (!c) (s ^^^ 56)).map (fun a => a ^^^ 56)
  attacks := fun s => (b.attacks (s ^^^ 56)).map (fun a => a ^^^ 56)
  pin := fun c s => (b.pin (!c) (s ^^^ 56)).map (List.map (fun a => a ^^^ 56))
  legal_moves := b.legal_moves.map
    (fun m => ⟨m.from_square ^^^ 56, m.to_square ^^^ 56, m.promotion⟩)
  pseudo_legal_moves := b.pseudo_legal_moves.map
    (fun m => ⟨m.from_square ^^^ 56, m.to_square ^^^ 56, m.promotion⟩)

/-- Modelled from the spec: the material value table of `util.py` (a file
absent from the sources): pawn=1, knight=3, bishop=3, rook=5, queen=9,
king=0. -/
def values : PieceType → Nat
  | 1 => 1
  | 2 => 3
  | 3 => 3
  | 4 => 5
  | 5 => 9
  | _ => 0

/-- Modelled from the spec: the attack-priority table of `util.py` (absent
from the sources): like `values` but the king is a sentinel larger than any
other value. -/
def king_values (pt : PieceType) : Nat :=
  if pt = KING then 99 else values pt

/-- Modelled from the spec: `util.material_diff position pov`, the signed
sum of material values, positive favoring `pov` (`util.py` is absent from
the sources). -/
def material_diff (b : Board) (pov : Bool) : Int :=
  (b.piece_map.map (fun sp =>
    if sp.2.color = pov then (values sp.2.piece_type : Int)
    else -(values sp.2.piece_type : Int))).sum

/-- Modelled from the spec: `util.is_hanging position piece square` — the
piece's color has no defender of that square (`util.py` is absent from the
sources). -/
def is_hanging (b : Board) (p : Piece) (sq : Nat) : Bool :=
  (b.attackers p.color sq).isEmpty

/-- Modelled from the spec: `util.is_in_bad_spot position square` — the
piece on the square is attacked by an enemy piece of lower-or-equal
attack-priority value, regardless of defense (`util.py` is absent from the
sources). -/
def is_in_bad_spot (b : Board) (sq : Nat) : Bool :=
  match b.piece_at sq with
  | none => false
  | some p =>
    (b.attackers (!p.color) sq).any (fun a =>
      match b.piece_at a with
      | some q => king_values q.piece_type ≤ king_values p.piece_type
      | none => false)

/-- Modelled from the spec: `util.is_trapped position square` — the piece
on the square has no legal destination that is not itself attacked by a
lower-or-equal-priority enemy piece (`util.py` is absent from the
sources). -/
def is_trapped (b : Board) (sq : Nat) : Bool :=
  match b.piece_at sq with
  | none => false
  | some p =>
    (b.legal_moves.filter (fun m => m.from_square == sq)).all (fun m =>
      (b.attackers (!p.color) m.to_square).any (fun a =>
        match b.piece_at a with
        | some q => king_values q.piece_type ≤ king_values p.piece_type
        | none => false))

/-- Modelled from the spec: `util.attacker_pieces position color square`
(`util.py` is absent from the sources). -/
def attacker_pieces (b : Board) (c : Bool) (sq : Nat) : List Piece :=
  (b.attackers c sq).filterMap b.piece_at

/-- Modelled from the spec: `util.attacked_opponent_squares position
from_square pov` — pieces of the non-`pov` color attacked from
`from_square`, with their squares (`util.py` is absent from the
sources). -/
def attacked_opponent_squares (b : Board) (from_square : Nat) (pov : Bool) :
    List (Piece × Nat) :=
  (b.attacks from_square).filterMap (fun s =>
    match b.piece_at s with
    | some p => if p.color != pov then some (p, s) else none
    | none => none)

/-- Modelled from the spec: `util.attacked_opponent_pieces` (`util.py` is
absent from the sources). -/
def attacked_opponent_pieces (b : Board) (from_square : Nat) (pov : Bool) :
    List Piece :=
  (attacked_opponent_squares b from_square pov).map Prod.fst

/-- Modelled from the spec: `util.moved_piece_type node` — the kind of the
piece the node's move moved, read off the position immediately preceding
the move; absence of a piece yields the empty result (`util.py` is absent
from the sources).  `b` is the preceding position. -/
def moved_piece_type (b : Board) (m : Move) : Option PieceType :=
  (b.piece_at m.from_square).map Piece.piece_type

/-- Modelled from the spec: `util.is_capture node` — the move lands on an
occupied square, or is a pawn capture en passant (`util.py` is absent from
the sources).  `b` is the preceding position. -/
def is_capture (b : Board) (m : Move) : Bool :=
  (b.piece_at m.to_square).isSome ||
    (moved_piece_type b m == some PAWN &&
      square_file m.from_square != square_file m.to_square)

/-- Modelled from the spec: `util.is_castling node` — the move takes the
king two or more files sideways (`util.py` is absent from the sources).
`b` is the preceding position. -/
def is_castling (b : Board) (m : Move) : Bool :=
  moved_piece_type b m == some KING &&
    decide (((square_file m.from_square : Int) -
      (square_file m.to_square : Int)).natAbs ≥ 2)

/-- Destination rank seen from the mover's side (`b` is the preceding
position, so the mover is `b.turn`). -/
def to_rank_from_mover (b : Board) (m : Move) : Nat :=
  if b.turn then square_rank m.to_square else 7 - square_rank m.to_square

/-- Modelled from the spec: `util.is_very_advanced_pawn_move node` — a pawn
move reaching the last two ranks (`util.py` is absent from the sources). -/
def is_very_advanced_pawn_move (b : Board) (m : Move) : Bool :=
  moved_piece_type b m == some PAWN && decide (to_rank_from_mover b m ≥ 6)

/-- Modelled from the spec: `util.is_advanced_pawn_move node` — a pawn move
reaching the last three ranks (`util.py` is absent from the sources). -/
def is_advanced_pawn_move (b : Board) (m : Move) : Bool :=
  moved_piece_type b m == some PAWN && decide (to_rank_from_mover b m ≥ 5)

/-- `util.ray_piece_types` = {bishop, rook, queen}, per the spec. -/
def ray_piece_types : List PieceType := [BISHOP, ROOK, QUEEN]

instance : Inhabited Board :=
  ⟨{ piece_at := fun _ => none, turn := true, attackers := fun _ _ => [],
     attacks := fun _ => [], pin := fun _ _ => none, legal_moves := [],
     pseudo_legal_moves := [] }⟩

/-- One step of the line: the move played and the resulting position
(spec, section 3, `Node`).  The parent of `mainline[i]` is `mainline[i-1]`
(the game root below `i = 0`), so ancestor access is by index. -/
structure Node where
  move : Move
  board : Board

instance : Inhabited Node := ⟨⟨⟨0, 0, none⟩, default⟩⟩

/-- Modelled from the spec (section 3; `model.py` is absent from the
sources): the unit of classification.  `game` is the root position the
line starts from, `cp` the signed evaluation of the final position from
`pov`'s perspective, `pov` the side playing the odd-indexed moves. -/
structure Variation where
  id : String
  game : Board
  mainline : List Node
  cp : Int
  pov : Bool

/-- `mainline[i]`; in the detector loops below the index is always in
bounds, matching the linked `node.parent` chain of the source. -/
def nodeD (v : Variation) (i : Nat) : Node := v.mainline.getD i default

/-- `mainline[i]` where python may raise `IndexError`. -/
def nodeE (v : Variation) (i : Nat) : Except String Node :=
  match v.mainline.get? i with
  | some n => .ok n
  | none => .error "IndexError"

/-- The position before `mainline[i]` was played: the parent node's board,
which is the game root for `i = 0`. -/
def parentBoard (v : Variation) (i : Nat) : Board :=
  if i = 0 then v.game else (nodeD v (i - 1)).board

/-- `util.moved_piece_type mainline[i]`. -/
def moved (v : Variation) (i : Nat) : Option PieceType :=
  moved_piece_type (parentBoard v i) (nodeD v i).move

/-- `util.is_capture mainline[i]`. -/
def is_captureN (v : Variation) (i : Nat) : Bool :=
  is_capture (parentBoard v i) (nodeD v i).move

/-- `util.is_castling mainline[i]`. -/
def is_castlingN (v : Variation) (i : Nat) : Bool :=
  is_castling (parentBoard v i) (nodeD v i).move

/-- `util.is_advanced_pawn_move mainline[i]`. -/
def is_advanced_pawn_moveN (v : Variation) (i : Nat) : Bool :=
  is_advanced_pawn_move (parentBoard v i) (nodeD v i).move

/-- `util.is_very_advanced_pawn_move mainline[i]`. -/
def is_very_advanced_pawn_moveN (v : Variation) (i : Nat) : Bool :=
  is_very_advanced_pawn_move (parentBoard v i) (nodeD v i).move

/-- `Variation.game.end().board()`: the final position (the root position
when the mainline is empty). -/
def endBoard (v : Variation) : Board :=
  match v.mainline.getLast? with
  | some n => n.board
  | none => v.game

/-- `Variation.game.end()` under `assert isinstance(node, ChildNode)`:
raises when the mainline is empty. -/
def endNodeE (v : Variation) : Except String Node :=
  match v.mainline.getLast? with
  | some n => .ok n
  | none => .error "AssertionError"

/-- Index of the final mainline node. -/
def endIdx (v : Variation) : Nat := v.mainline.length - 1

/-- `board.king c` under `assert king is not None`. -/
def kingE (b : Board) (c : Bool) : Except String Nat :=
  match b.king c with
  | some k => .ok k
  | none => .error "AssertionError"

/-- Indexing python's `king_values` table with the result of
`moved_piece_type`: raises when the piece is absent. -/
def king_valuesE : Option PieceType → Except String Nat
  | some pt => .ok (king_values pt)
  | none => .error "KeyError"

/-- Indexing python's `values` table with the result of
`moved_piece_type`: raises when the piece is absent. -/
def valuesE : Option PieceType → Except String Nat
  | some pt => .ok (values pt)
  | none => .error "KeyError"

/-- Indices of `mainline[1::2]` (the pov moves). -/
def oddIdxOf (n : Nat) : List Nat :=
  (List.range n).filter (fun i => i % 2 == 1)

/-- Indices of `mainline[1::2]`. -/
def oddIdx (v : Variation) : List Nat := oddIdxOf v.mainline.length

/-- Indices of `mainline[1::2][1:]`. -/
def odd3Idx (v : Variation) : List Nat := (oddIdx v).drop 1

/-- Indices of `mainline[::2][1:]`. -/
def evenDrop1Idx (v : Variation) : List Nat :=
  (((List.range v.mainline.length).filter (fun i => i % 2 == 0)).drop 1)

/-- Indices of the whole mainline. -/
def allIdx (v : Variation) : List Nat := List.range v.mainline.length

/-- A python `for` loop whose body either `return`s a boolean (`some b`)
or falls through (`none`); `d` is the value returned after the loop. -/
def loopB {α : Type} (f : α → Option Bool) (d : Bool) : List α → Bool
  | [] => d
  | a :: l =>
    match f a with
    | some b => b
    | none => loopB f d l

/-- As `loopB`, for bodies that may raise. -/
def loopE {α : Type} (f : α → Except String (Option Bool)) (d : Bool) :
    List α → Except String Bool
  | [] => .ok d
  | a :: l =>
    match f a with
    | .error e => .error e
    | .ok (some b) => .ok b
    | .ok none => loopE f d l

/-- `cook.advanced_pawn` (src/replica/cook.py, lines 154-158). -/
def advanced_pawn (v : Variation) : Bool :=
  (oddIdx v).any (fun i => is_very_advanced_pawn_moveN v i)

/-- `cook.double_check` (lines 160-164). -/
def double_check (v : Variation) : Bool :=
  (oddIdx v).any (fun i => (nodeD v i).board.checkers.length > 1)

/-- `cook.x_ray` (lines 175-190). -/
def x_ray (v : Variation) : Bool :=
  (odd3Idx v).any (fun i =>
    let node := nodeD v i
    let prev_op := nodeD v (i - 1)
    let prev_pl := nodeD v (i - 2)
    is_captureN v i &&
    prev_op.move.to_square == node.move.to_square &&
    moved v (i - 1) != some KING &&
    prev_pl.move.to_square == prev_op.move.to_square &&
    (between node.move.from_square node.move.to_square).contains prev_op.move.from_square)

/-- `cook.quiet_move` (lines 273-287). -/
def quiet_move (v : Variation) : Bool :=
  (allIdx v).any (fun i =>
    let node := nodeD v i
    node.board.turn != v.pov && i + 1 != v.mainline.length &&
    !node.board.is_check && !(parentBoard v i).is_check &&
    !is_captureN v i &&
    (attacked_opponent_pieces node.board node.move.to_square v.pov).isEmpty &&
    !is_advanced_pawn_moveN v i &&
    moved v i != some KING)

/-- `cook.check_escape` (lines 304-312). -/
def check_escape (v : Variation) : Bool :=
  loopB (fun i =>
    let node := nodeD v i
    if node.board.is_check || is_captureN v i then some false
    else if (parentBoard v i).legal_moves_count < 3 then some false
    else if (parentBoard v i).is_check then some true
    else none) false (oddIdx v)

/-- `cook.attraction` (lines 314-338). -/
def attraction (v : Variation) : Bool :=
  ((allIdx v).drop 1).any (fun i =>
    let node := nodeD v i
    if node.board.turn == v.pov then false
    else
      let first_move_to := node.move.to_square
      if i + 1 < v.mainline.length then
        let opponent_reply := nodeD v (i + 1)
        if opponent_reply.move.to_square == first_move_to then
          let attracted_piece := moved v (i + 1)
          if attracted_piece == some KING || attracted_piece == some QUEEN ||
              attracted_piece == some ROOK then
            let attracted_to_square := opponent_reply.move.to_square
            if i + 2 < v.mainline.length then
              let next_nd := nodeD v (i + 2)
              if (next_nd.board.attackers v.pov attracted_to_square).contains
                  next_nd.move.to_square then
                if attracted_piece == some KING then true
                else if i + 4 < v.mainline.length then
                  (nodeD v (i + 4)).move.to_square == attracted_to_square
                else false
              else false
            else false
          else false
        else false
      else false)

/-- `cook.discovered_check` (lines 265-271). -/
def discovered_check (v : Variation) : Bool :=
  (oddIdx v).any (fun i =>
    let node := nodeD v i
    let ck := node.board.checkers
    !ck.isEmpty && !(ck.contains node.move.to_square))

/-- `cook.discovered_attack` (lines 246-263). -/
def discovered_attack (v : Variation) : Bool :=
  if discovered_check v then true
  else
    loopB (fun i =>
      if is_captureN v i then
        let node := nodeD v i
        let betw := between node.move.from_square node.move.to_square
        if (nodeD v (i - 1)).move.to_square == node.move.to_square then some false
        else
          let prev := nodeD v (i - 2)
          if betw.contains prev.move.from_square &&
              node.move.to_square != prev.move.to_square &&
              node.move.from_square != prev.move.to_square &&
              !is_castlingN v (i - 2) then some true
          else none
      else none) false (odd3Idx v)

/-- `cook.trapped_piece` (lines 230-241). -/
def trapped_piece (v : Variation) : Bool :=
  (odd3Idx v).any (fun i =>
    let node := nodeD v i
    let square0 := node.move.to_square
    match (parentBoard v i).piece_at square0 with
    | some captured =>
      captured.piece_type != PAWN &&
      (let prev := nodeD v (i - 1)
       let square := if prev.move.to_square == square0 then prev.move.from_square else square0
       is_trapped (parentBoard v (i - 1)) square)
    | none => false)

/-- `cook.overloading` (lines 243-244): the permanently-false stub. -/
def overloading (_v : Variation) : Bool := false

/-- `cook.self_interference` (lines 413-429).  Python's `if defender` is a
truthiness test: it fails both for `None` (no attacker) and for the square
`a1 = 0`, so a defender popped on a1 behaves as absent (and then
`defender_piece` is `None` as well); hence the `defender != 0` guard. -/
def self_interference (v : Variation) : Bool :=
  (odd3Idx v).any (fun i =>
    let node := nodeD v i
    let prev_board := parentBoard v i
    let square := node.move.to_square
    match prev_board.piece_at square with
    | some capture =>
      is_hanging prev_board capture square &&
      (let init_board := (nodeD v (i - 2)).board
       match (init_board.attackers capture.color square).head? with
       | some defender =>
         defender != 0 &&
         (match init_board.piece_at defender with
          | some defender_piece =>
            ray_piece_types.contains defender_piece.piece_type &&
            (between square defender).contains (nodeD v (i - 1)).move.to_square
          | none => false)
       | none => false)
    | none => false)

/-- `cook.interference` (lines 431-450).  As in `self_interference`,
Python's `if defender` truthiness makes a defender on `a1 = 0` behave as
absent, hence the `defender != 0` guard. -/
def interference (v : Variation) : Bool :=
  (odd3Idx v).any (fun i =>
    let node := nodeD v i
    let prev_board := parentBoard v i
    let square := node.move.to_square
    match prev_board.piece_at square with
    | some capture =>
      square != (nodeD v (i - 1)).move.to_square &&
      is_hanging prev_board capture square &&
      (let init_board := parentBoard v (i - 2)
       match (init_board.attackers capture.color square).head? with
       | some defender =>
         defender != 0 &&
         (match init_board.piece_at defender with
          | some defender_piece =>
            ray_piece_types.contains defender_piece.piece_type &&
            (between square defender).contains (nodeD v (i - 2)).move.to_square
          | none => false)
       | none => false)
    | none => false)

/-- `cook.intermezzo` (lines 452-470). -/
def intermezzo (v : Variation) : Bool :=
  loopB (fun i =>
    if is_captureN v i then
      let node := nodeD v i
      let capture_move := node.move
      let capture_square := node.move.to_square
      let op_node := nodeD v (i - 1)
      let prev_pov_node := nodeD v (i - 2)
      if !((prev_pov_node.board.attackers (!v.pov) capture_square).contains
          op_node.move.from_square) then
        if prev_pov_node.move.to_square != capture_square then
          let prev_op_node := nodeD v (i - 3)
          some (prev_op_node.move.to_square == capture_square &&
            is_captureN v (i - 3) &&
            prev_op_node.board.legal_moves.contains capture_move)
        else none
      else none
    else none) false (odd3Idx v)

/-- `cook.pin_prevents_attack` (lines 472-489). -/
def pin_prevents_attack (v : Variation) : Bool :=
  (oddIdx v).any (fun i =>
    let board := (nodeD v i).board
    board.piece_map.any (fun sp =>
      let square := sp.1
      let piece := sp.2
      piece.color != v.pov &&
      (match board.pin piece.color square with
       | none => false
       | some pin_dir =>
         (board.attacks square).any (fun attack =>
           match board.piece_at attack with
           | some attacked =>
             attacked.color == v.pov && !(pin_dir.contains attack) &&
             (values attacked.piece_type > values piece.piece_type ||
               is_hanging board attacked attack)
           | none => false))))

/-- `cook.attacking_f2_f7` (lines 514-520). -/
def attacking_f2_f7 (v : Variation) : Bool :=
  loopB (fun i =>
    let node := nodeD v i
    let square := node.move.to_square
    if ((parentBoard v i).piece_at node.move.to_square).isSome &&
        (square == 13 || square == 53) then
      some (match node.board.piece_at (if square == 53 then 60 else 4) with
        | some king => king.piece_type == KING && king.color != v.pov
        | none => false)
    else none) false (oddIdx v)

/-- `cook.clearance` (lines 552-572). -/
def clearance (v : Variation) : Bool :=
  (odd3Idx v).any (fun i =>
    let node := nodeD v i
    let board := node.board
    ((parentBoard v i).piece_at node.move.to_square).isNone &&
    (match board.piece_at node.move.to_square with
     | some piece =>
       ray_piece_types.contains piece.piece_type &&
       (let prev := nodeD v (i - 2)
        let prev_move := prev.move
        prev_move.promotion.isNone &&
        prev_move.to_square != node.move.from_square &&
        prev_move.to_square != node.move.to_square &&
        !(parentBoard v i).is_check &&
        (!board.is_check || moved v (i - 1) != some KING) &&
        (prev_move.from_square == node.move.to_square ||
          (between node.move.from_square node.move.to_square).contains
            prev_move.from_square) &&
        (((parentBoard v (i - 2)).piece_at prev_move.to_square).isNone ||
          is_in_bad_spot prev.board prev_move.to_square))
     | none => false))

/-- `cook.en_passant` (lines 574-581). -/
def en_passant (v : Variation) : Bool :=
  (oddIdx v).any (fun i =>
    let node := nodeD v i
    moved v i == some PAWN &&
    square_file node.move.from_square != square_file node.move.to_square &&
    ((parentBoard v i).piece_at node.move.to_square).isNone)

/-- `cook.castling` (lines 583-587). -/
def castling (v : Variation) : Bool :=
  (oddIdx v).any (fun i => is_castlingN v i)

/-- `cook.promotion` (lines 589-593). -/
def promotion (v : Variation) : Bool :=
  (oddIdx v).any (fun i => (nodeD v i).move.promotion.isSome)

/-- `cook.under_promotion` (lines 595-601). -/
def under_promotion (v : Variation) : Bool :=
  loopB (fun i =>
    let node := nodeD v i
    if node.board.is_checkmate then some (node.move.promotion == some KNIGHT)
    else if node.move.promotion.isSome && node.move.promotion != some QUEEN then some true
    else none) false (oddIdx v)

/-- `cook.sacrifice` (lines 166-173). -/
def sacrifice (v : Variation) : Except String Bool := do
  let diffs := v.mainline.map (fun n => material_diff n.board v.pov)
  let initial ← match diffs.head? with
    | some d => Except.ok d
    | none => Except.error "IndexError"
  pure (loopB (fun d =>
    if d - initial ≤ -2 then
      some (!((evenDrop1Idx v).any (fun i => (nodeD v i).move.promotion.isSome)))
    else none) false
    (((oddIdxOf diffs.length).drop 1).map (fun i => diffs.getD i 0)))

/-- `cook.defensive_move` (lines 289-302). -/
def defensive_move (v : Variation) : Except String Bool :=
  if v.mainline.length < 2 then .error "IndexError"
  else
    if (nodeD v (v.mainline.length - 2)).board.legal_moves_count < 3 then .ok false
    else
      let node := nodeD v (v.mainline.length - 1)
      if node.board.is_check || is_captureN v (v.mainline.length - 1) then .ok false
      else if !(attacked_opponent_pieces node.board node.move.to_square v.pov).isEmpty then
        .ok false
      else .ok (!is_advanced_pawn_moveN v (v.mainline.length - 1))

/-- `cook.fork` (lines 192-211). -/
def fork (v : Variation) : Except String Bool :=
  loopE (fun i =>
    if moved v i != some KING then
      let node := nodeD v i
      let board := node.board
      if is_in_bad_spot board node.move.to_square then pure none
      else do
        let nb ← List.foldlM (fun acc ps =>
          let piece := (ps : Piece × Nat).1
          let square := ps.2
          if piece.piece_type == PAWN then pure acc
          else do
            let kv ← king_valuesE (moved v i)
            pure (if decide (king_values piece.piece_type > kv) ||
                (is_hanging board piece square &&
                  !((board.attackers (!v.pov) node.move.to_square).contains square))
              then acc + 1 else acc))
          (0 : Nat) (attacked_opponent_squares board node.move.to_square v.pov)
        if nb > 1 then pure (some true) else pure none
    else pure none) false ((oddIdx v).dropLast)

/-- `cook.hanging_piece` (lines 213-228). -/
def hanging_piece (v : Variation) : Except String Bool := do
  let n1 ← nodeE v 1
  let n0 ← nodeE v 0
  let to_sq := n1.move.to_square
  let captured := n0.board.piece_at to_sq
  if n0.board.is_check &&
      (captured.isNone || (captured.map Piece.piece_type) == some PAWN) then
    pure false
  else
    match captured with
    | some cap =>
      if cap.piece_type != PAWN then
        if is_hanging n0.board cap to_sq then
          let op_move := n0.move
          let op_capture := v.game.piece_at op_move.to_square
          if (match op_capture with
              | some oc => decide (values oc.piece_type ≥ values cap.piece_type) &&
                  op_move.to_square == to_sq
              | none => false) then pure false
          else if v.mainline.length < 4 then pure true
          else if material_diff (nodeD v 3).board v.pov ≥
              material_diff n1.board v.pov then pure true
          else pure false
        else pure false
      else pure false
    | none => pure false

/-- `cook.deflection` (lines 340-367). -/
def deflection (v : Variation) : Except String Bool :=
  loopE (fun i =>
    let node := nodeD v i
    let captured_piece := (parentBoard v i).piece_at node.move.to_square
    if captured_piece.isSome || node.move.promotion.isSome then do
      let capturing_piece := moved v i
      let skip ← match captured_piece with
        | some cp => do
            let kv ← king_valuesE capturing_piece
            pure (decide (king_values cp.piece_type > kv))
        | none => pure false
      if skip then pure none
      else
        let square := node.move.to_square
        let prev_op_move := (nodeD v (i - 1)).move
        let grandpa := nodeD v (i - 2)
        let prev_player_move := grandpa.move
        let prev_player_capture :=
          (parentBoard v (i - 2)).piece_at prev_player_move.to_square
        let cond1 ← match prev_player_capture with
          | none => pure true
          | some ppc => do
              let pt ← match moved v (i - 2) with
                | some pt => Except.ok pt
                | none => Except.error "TypeError"
              pure (decide (values ppc.piece_type < pt))
        if cond1 &&
            square != prev_op_move.to_square &&
            square != prev_player_move.to_square &&
            (prev_op_move.to_square == prev_player_move.to_square ||
              grandpa.board.is_check) &&
            ((grandpa.board.attacks prev_op_move.from_square).contains square ||
              (node.move.promotion.isSome &&
                square_file node.move.to_square == square_file prev_op_move.from_square &&
                (grandpa.board.attacks prev_op_move.from_square).contains
                  node.move.from_square)) &&
            !(((parentBoard v i).attacks prev_op_move.to_square).contains square) then
          pure (some true)
        else pure none
    else pure none) false (odd3Idx v)

/-- `cook.exposed_king` (lines 369-393). -/
def exposed_king (v : Variation) : Except String Bool := do
  let n0 ← nodeE v 0
  let pov := if v.pov then v.pov else !v.pov
  let board := if v.pov then n0.board else n0.board.mirror
  let king ← kingE board (!pov)
  if square_rank king < 5 then pure false
  else
    let squares := [king - 8] ++
      (if square_file king > 0 then [king - 1, king - 9] else []) ++
      (if square_file king < 7 then [king + 1, king - 7] else [])
    if squares.any (fun square =>
        board.piece_at square == some ⟨PAWN, !pov⟩) then pure false
    else
      pure (((oddIdx v).drop 1).dropLast.any (fun i => (nodeD v i).board.is_check))

/-- `cook.skewer` (lines 395-411). -/
def skewer (v : Variation) : Except String Bool :=
  loopE (fun i =>
    let node := nodeD v i
    let prev := nodeD v (i - 1)
    match prev.board.piece_at node.move.to_square with
    | some capture =>
      if (match moved v i with
          | some pt => ray_piece_types.contains pt
          | none => false) && !node.board.is_checkmate then
        let betw := between node.move.from_square node.move.to_square
        let op_move := prev.move
        if op_move.to_square == node.move.to_square ||
            !(betw.contains op_move.from_square) then pure none
        else do
          let kv ← king_valuesE (moved v (i - 1))
          if decide (kv > king_values capture.piece_type) &&
              is_in_bad_spot prev.board node.move.to_square then
            pure (some true)
          else pure none
      else pure none
    | none => pure none) false (odd3Idx v)

/-- `cook.pin_prevents_escape` (lines 491-512). -/
def pin_prevents_escape (v : Variation) : Except String Bool :=
  loopE (fun i =>
    let board := (nodeD v i).board
    do
      let found ← loopE (fun sp =>
        let pinned_square := (sp : Nat × Piece).1
        let pinned_piece := sp.2
        if pinned_piece.color == v.pov then pure none
        else match board.pin pinned_piece.color pinned_square with
          | none => pure none
          | some pin_dir => do
            let r ← loopE (fun attacker_square =>
              if pin_dir.contains attacker_square then do
                let attacker ← match board.piece_at attacker_square with
                  | some a => Except.ok a
                  | none => Except.error "AssertionError"
                if decide (values pinned_piece.piece_type > values attacker.piece_type) then
                  pure (some true)
                else if is_hanging board pinned_piece pinned_square &&
                    !((board.attackers (!v.pov) attacker_square).contains
                      pinned_square) &&
                    !((board.pseudo_legal_moves.filter (fun m =>
                        m.from_square == pinned_square &&
                        !(pin_dir.contains m.to_square))).isEmpty) then
                  pure (some true)
                else pure none
              else pure none) false (board.attackers v.pov pinned_square)
            if r then pure (some true) else pure none)
        false board.piece_map
      if found then pure (some true) else pure none) false (oddIdx v)

/-- `cook.capturing_defender` (lines 603-626). -/
def capturing_defender (v : Variation) : Except String Bool :=
  loopE (fun i =>
    let node := nodeD v i
    let board := node.board
    let capture := (parentBoard v i).piece_at node.move.to_square
    do
      let outer ← if board.is_checkmate then pure true
        else match capture with
          | some cap =>
            if moved v i != some KING then do
              let mv ← valuesE (moved v i)
              pure (decide (values cap.piece_type ≤ mv) &&
                is_hanging (parentBoard v i) cap node.move.to_square &&
                (nodeD v (i - 1)).move.to_square != node.move.to_square)
            else pure false
          | none => pure false
      if outer then
        let prev := nodeD v (i - 2)
        if !prev.board.is_check && prev.move.to_square != node.move.from_square then
          let init_board := parentBoard v (i - 2)
          let defender_square := prev.move.to_square
          match init_board.piece_at defender_square with
          | some defender =>
            if (init_board.attackers defender.color node.move.to_square).contains
                defender_square && !init_board.is_check then
              pure (some true)
            else pure none
          | none => pure none
        else pure none
      else pure none) false (odd3Idx v)

/-- `cook.side_attack` (lines 528-550). -/
def side_attack (v : Variation) (corner_file : Nat) (king_files : List Nat)
    (nb_pieces : Nat) : Except String Bool := do
  let back_rank : Nat := if v.pov then 7 else 0
  let n0 ← nodeE v 0
  let init_board := n0.board
  -- python's `not king_square` is true for an absent king and for square 0
  if (match init_board.king (!v.pov) with
      | none => true
      | some king_square =>
        king_square == 0 ||
        square_rank king_square != back_rank ||
        !(king_files.contains (square_file king_square))) ||
      init_board.piece_map.length < nb_pieces ||
      !((oddIdx v).any (fun i => (nodeD v i).board.is_check)) then
    pure false
  else
    let corner := chess_square corner_file back_rank
    let score := ((oddIdx v).map (fun i =>
      let node := nodeD v i
      let corner_dist := square_distance corner node.move.to_square
      ((if node.board.is_check then (1 : Int) else 0) +
        (if is_captureN v i && decide (corner_dist ≤ 3) then (1 : Int)
         else if decide (corner_dist ≥ 5) then (-1 : Int) else 0)))).sum
    pure (decide (score ≥ 2))

/-- `cook.kingside_attack` (lines 522-523). -/
def kingside_attack (v : Variation) : Except String Bool :=
  side_attack v 7 [6, 7] 20

/-- `cook.queenside_attack` (lines 525-526). -/
def queenside_attack (v : Variation) : Except String Bool :=
  side_attack v 0 [0, 1, 2] 18

/-- `cook.piece_endgame` (lines 747-754). -/
def piece_endgame (v : Variation) (pt : PieceType) : Except String Bool := do
  let n0 ← nodeE v 0
  let n1 ← nodeE v 1
  pure ([n0.board, n1.board].all (fun board =>
    (!(board.pieces pt WHITE).isEmpty || !(board.pieces pt BLACK).isEmpty) &&
    board.piece_map.all (fun sp => [KING, PAWN, pt].contains sp.2.piece_type)))

/-- `cook.queen_rook_endgame` (lines 756-764). -/
def queen_rook_endgame (v : Variation) : Except String Bool := do
  let n0 ← nodeE v 0
  let n1 ← nodeE v 1
  pure ([n0.board, n1.board].all (fun board =>
    let pieces := board.piece_map.map Prod.snd
    (pieces.countP (fun p => p.piece_type == QUEEN)) == 1 &&
    pieces.any (fun p => p.piece_type == ROOK) &&
    pieces.all (fun p => [QUEEN, ROOK, PAWN, KING].contains p.piece_type)))

/-- `cook.smothered_mate` (lines 766-779). -/
def smothered_mate (v : Variation) : Except String Bool := do
  let board := endBoard v
  let king_square ← kingE board (!v.pov)
  loopE (fun checker_square => do
    let piece ← match board.piece_at checker_square with
      | some p => Except.ok p
      | none => Except.error "AssertionError"
    if piece.piece_type == KNIGHT then
      if ((List.range 64).filter (fun s => square_distance s king_square == 1)).all
          (fun escape_square =>
            match board.piece_at escape_square with
            | none => false
            | some blocker => blocker.color != v.pov) then
        pure (some true)
      else pure (some false)
    else pure none) false board.checkers

/-- `cook.back_rank_mate` (lines 628-652). -/
def back_rank_mate (v : Variation) : Except String Bool := do
  let _node ← endNodeE v
  let board := endBoard v
  let king ← kingE board (!v.pov)
  let back_rank : Nat := if v.pov then 7 else 0
  if board.is_checkmate && square_rank king == back_rank then
    let squares := [if v.pov then king - 8 else king + 8] ++
      (if v.pov then
        (if square_file king < 7 then [king - 7] else []) ++
          (if square_file king > 0 then [king - 9] else [])
      else
        (if square_file king < 7 then [king + 9] else []) ++
          (if square_file king > 0 then [king + 7] else []))
    if squares.any (fun square =>
        match board.piece_at square with
        | none => true
        | some piece =>
          piece.color == v.pov || !(board.attackers v.pov square).isEmpty) then
      pure false
    else
      pure (board.checkers.any (fun checker => square_rank checker == back_rank))
  else pure false

/-- `cook.anastasia_mate` (lines 654-671). -/
def anastasia_mate (v : Variation) : Except String Bool := do
  let node ← endNodeE v
  let board := endBoard v
  let king ← kingE board (!v.pov)
  if [0, 7].contains (square_file king) && !([0, 7].contains (square_rank king)) then
    if square_file node.move.to_square == square_file king &&
        (moved v (endIdx v) == some QUEEN || moved v (endIdx v) == some ROOK) then
      let board2 := if square_file king != 0 then board.apply_flip_horizontal else board
      let king2 ← kingE board2 (!v.pov)
      match board2.piece_at (king2 + 1) with
      | some blocker =>
        if blocker.color != v.pov then
          match board2.piece_at (king2 + 3) with
          | some knight =>
            pure (knight.color == v.pov && knight.piece_type == KNIGHT)
          | none => pure false
        else pure false
      | none => pure false
    else pure false
  else pure false

/-- `cook.hook_mate` (lines 673-687). -/
def hook_mate (v : Variation) : Except String Bool := do
  let node ← endNodeE v
  let board := endBoard v
  let king ← kingE board (!v.pov)
  if moved v (endIdx v) == some ROOK &&
      square_distance node.move.to_square king == 1 then
    pure ((board.attackers v.pov node.move.to_square).any (fun rook_defender_square =>
      match board.piece_at rook_defender_square with
      | some defender =>
        defender.piece_type == KNIGHT &&
        square_distance rook_defender_square king == 1 &&
        (board.attackers v.pov rook_defender_square).any (fun knight_defender_square =>
          match board.piece_at knight_defender_square with
          | some pawn => pawn.piece_type == PAWN
          | none => false)
      | none => false))
  else pure false

/-- `cook.arabian_mate` (lines 689-703). -/
def arabian_mate (v : Variation) : Except String Bool := do
  let node ← endNodeE v
  let board := endBoard v
  let king ← kingE board (!v.pov)
  if [0, 7].contains (square_file king) && [0, 7].contains (square_rank king) &&
      moved v (endIdx v) == some ROOK &&
      square_distance node.move.to_square king == 1 then
    pure ((board.attackers v.pov node.move.to_square).any (fun knight_square =>
      match board.piece_at knight_square with
      | some knight =>
        knight.piece_type == KNIGHT &&
        ((square_rank knight_square : Int) - (square_rank king : Int)).natAbs == 2 &&
        ((square_file knight_square : Int) - (square_file king : Int)).natAbs == 2
      | none => false))
  else pure false

/-- `cook.boden_or_double_bishop_mate` (lines 705-720). -/
def boden_or_double_bishop_mate (v : Variation) : Except String (Option String) := do
  let _node ← endNodeE v
  let board := endBoard v
  let king ← kingE board (!v.pov)
  let bishop_squares := board.pieces BISHOP v.pov
  match bishop_squares with
  | b0 :: b1 :: _ =>
    if ((List.range 64).filter (fun s => square_distance s king < 2)).all
        (fun square =>
          (attacker_pieces board v.pov square).all
            (fun p => p.piece_type == BISHOP)) then
      if (decide (square_file b0 < square_file king)) ==
          (decide (square_file b1 > square_file king)) then
        pure (some "bodenMate")
      else pure (some "doubleBishopMate")
    else pure none
  | _ => pure none

/-- `cook.dovetail_mate` (lines 722-745). -/
def dovetail_mate (v : Variation) : Except String Bool := do
  let node ← endNodeE v
  let board := endBoard v
  let king ← kingE board (!v.pov)
  if [0, 7].contains (square_file king) || [0, 7].contains (square_rank king) then
    pure false
  else
    let queen_square := node.move.to_square
    if moved v (endIdx v) != some QUEEN ||
        square_file queen_square == square_file king ||
        square_rank queen_square == square_rank king ||
        square_distance queen_square king > 1 then
      pure false
    else
      pure (loopB (fun square =>
        if square == queen_square then none
        else
          let attackers := board.attackers v.pov square
          if attackers == [queen_square] then
            (if (board.piece_at square).isSome then some false else none)
          else if !attackers.isEmpty then some false
          else none) true
        ((List.range 64).filter (fun s => square_distance s king == 1)))

/-- `cook.mate_in` (lines 781-793). -/
def mate_in (v : Variation) : Option String :=
  if !(endBoard v).is_checkmate then none
  else
    let moves_to_mate := v.mainline.length / 2
    if moves_to_mate == 1 then some "mateIn1"
    else if moves_to_mate == 2 then some "mateIn2"
    else if moves_to_mate == 3 then some "mateIn3"
    else if moves_to_mate == 4 then some "mateIn4"
    else some "mateIn5"

/-- The `smotheredMate > backRankMate > anastasiaMate > hookMate >
arabianMate > boden/doubleBishop > dovetailMate` elif chain of `cook`
(lines 27-42): the first matching pattern, if any. -/
def matePattern (v : Variation) : Except String (Option String) :=
  (smothered_mate v).bind fun s =>
  if s then .ok (some "smotheredMate") else
  (back_rank_mate v).bind fun br =>
  if br then .ok (some "backRankMate") else
  (anastasia_mate v).bind fun an =>
  if an then .ok (some "anastasiaMate") else
  (hook_mate v).bind fun hk =>
  if hk then .ok (some "hookMate") else
  (arabian_mate v).bind fun ar =>
  if ar then .ok (some "arabianMate") else
  (boden_or_double_bishop_mate v).bind fun bd =>
  match bd with
  | some found => .ok (some found)
  | none =>
    (dovetail_mate v).bind fun dv =>
    if dv then .ok (some "dovetailMate") else .ok none

/-- A conditionally appended tag. -/
def boolTag (c : Bool) (t : String) : List String := if c then [t] else []

/-- A conditionally appended tag whose detector may raise. -/
def tagOfE (x : Except String Bool) (t : String) : Except String (List String) := do
  let b ← x
  pure (boolTag b t)

/-- Lines 43-48 of `cook`: the evaluation tag from the `cp` thresholds,
emitted when there is no mate. -/
def evalTag (cp : Int) : String :=
  if cp > 600 then "crushing"
  else if cp > 200 then "advantage"
  else "equality"

/-- Lines 23-48 of `cook`: the mate / mate-pattern tags, or else exactly
one evaluation tag from the `cp` thresholds. -/
def mateBlock (v : Variation) : Except String (List String) :=
  match mate_in v with
  | some mate_tag =>
    (matePattern v).bind (fun pat => .ok ([mate_tag, "mate"] ++ pat.toList))
  | none => .ok [evalTag v.cp]

/-- Lines 53-56 of `cook`: `deflection`, else `overloading`. -/
def deflectionBlock (v : Variation) : Except String (List String) := do
  let d ← deflection v
  pure (if d then ["deflection"]
    else if overloading v then ["overloading"] else [])

/-- Lines 67-68 of `cook`: `defensive_move(v) or check_escape(v)` tags
`defensiveMove`. -/
def defensiveBlock (v : Variation) : Except String (List String) := do
  let dm ← defensive_move v
  pure (boolTag (dm || check_escape v) "defensiveMove")

/-- Lines 100-101 of `cook`: `pin_prevents_attack(v) or
pin_prevents_escape(v)` tags `pin` (short-circuit preserved). -/
def pinBlock (v : Variation) : Except String (List String) :=
  if pin_prevents_attack v then .ok ["pin"]
  else do
    let e ← pin_prevents_escape v
    pure (boolTag e "pin")

/-- Lines 124-135 of `cook`: the endgame elif chain. -/
def endgameBlock (v : Variation) : Except String (List String) := do
  let p ← piece_endgame v PAWN
  if p then pure ["pawnEndgame"]
  else do
    let q ← piece_endgame v QUEEN
    if q then pure ["queenEndgame"]
    else do
      let r ← piece_endgame v ROOK
      if r then pure ["rookEndgame"]
      else do
        let bi ← piece_endgame v BISHOP
        if bi then pure ["bishopEndgame"]
        else do
          let n ← piece_endgame v KNIGHT
          if n then pure ["knightEndgame"]
          else do
            let qr ← queen_rook_endgame v
            pure (boolTag qr "queenRookEndgame")

/-- Lines 138-141 of `cook`: `kingside_attack`, else `queenside_attack`. -/
def sideAttackBlock (v : Variation) : Except String (List String) := do
  let k ← kingside_attack v
  if k then pure ["kingsideAttack"]
  else do
    let q ← queenside_attack v
    pure (boolTag q "queensideAttack")

/-- Lines 137-141 of `cook`: the side-attack block runs only when neither
`backRankMate` nor `fork` is among the tags accumulated so far. -/
def sideAttackIf (v : Variation) (acc : List String) : Except String (List String) :=
  if !(acc.contains "backRankMate") && !(acc.contains "fork") then sideAttackBlock v
  else pure []

/-- Lines 143-150 of `cook`: the single length tag. -/
def lengthTag (v : Variation) : String :=
  if v.mainline.length == 2 then "oneMove"
  else if v.mainline.length == 4 then "short"
  else if v.mainline.length ≥ 8 then "veryLong"
  else "long"

/-- The tag list accumulated by lines 23-135 of `cook`, in exact source
order: the eleven fallible blocks are passed in as `b…`, and the always
total detectors (attraction, advancedPawn, doubleCheck, quietMove,
xRayAttack, trappedPiece, discoveredAttack, interference, intermezzo,
attackingF2F7, clearance, enPassant, castling, promotion, underPromotion)
contribute their tag in place. -/
def cookAcc (v : Variation) (b1 b3 b7 b8 b10 b11 b14 b15 b18 b25 b26 : List String) :
    List String :=
  b1 ++ boolTag (attraction v) "attraction" ++ b3 ++
  boolTag (advanced_pawn v) "advancedPawn" ++
  boolTag (double_check v) "doubleCheck" ++ boolTag (quiet_move v) "quietMove" ++
  b7 ++ b8 ++ boolTag (x_ray v) "xRayAttack" ++ b10 ++ b11 ++
  boolTag (trapped_piece v) "trappedPiece" ++
  boolTag (discovered_attack v) "discoveredAttack" ++ b14 ++ b15 ++
  boolTag (self_interference v || interference v) "interference" ++
  boolTag (intermezzo v) "intermezzo" ++ b18 ++
  boolTag (attacking_f2_f7 v) "attackingF2F7" ++
  boolTag (clearance v) "clearance" ++ boolTag (en_passant v) "enPassant" ++
  boolTag (castling v) "castling" ++ boolTag (promotion v) "promotion" ++
  boolTag (under_promotion v) "underPromotion" ++ b25 ++ b26

/-- `cook.cook` (lines 20-152): every detector in source order (the
detectors that cannot raise are invoked inside `cookAcc`, preserving the
tag order of the source; they are pure, so this reordering of calls is
unobservable), the side-attack block guarded by the tags accumulated so
far, and the length tag appended last. -/
def cook (v : Variation) : Except String (List String) := do
  let b1 ← mateBlock v
  let b3 ← deflectionBlock v
  let b7 ← defensiveBlock v
  let b8 ← tagOfE (sacrifice v) "sacrifice"
  let b10 ← tagOfE (fork v) "fork"
  let b11 ← tagOfE (hanging_piece v) "hangingPiece"
  let b14 ← tagOfE (exposed_king v) "exposedKing"
  let b15 ← tagOfE (skewer v) "skewer"
  let b18 ← pinBlock v
  let b25 ← tagOfE (capturing_defender v) "capturingDefender"
  let b26 ← endgameBlock v
  let acc := cookAcc v b1 b3 b7 b8 b10 b11 b14 b15 b18 b25 b26
  let b27 ← sideAttackIf v acc
  pure (acc ++ b27 ++ [lengthTag v])

/-- A concrete board for the example variations: attack oracles empty (no
checks anywhere), no pins, no legal-move data needed. -/
def mkBoard (t : Bool) (l : List (Nat × Piece)) : Board where
  piece_at := fun s => l.lookup s
  turn := t
  attackers := fun _ _ => []
  attacks := fun _ => []
  pin := fun _ _ => none
  legal_moves := []
  pseudo_legal_moves := []

def wK : Piece := ⟨KING, true⟩

def wQ : Piece := ⟨QUEEN, true⟩

def wR : Piece := ⟨ROOK, true⟩

def wP : Piece := ⟨PAWN, true⟩

def bK : Piece := ⟨KING, false⟩

def bR : Piece := ⟨ROOK, false⟩

/-- A well-formed two-ply line: 1... Kh8-g8 2. Ke1-e2, evaluation +250. -/
def exVar : Variation where
  id := "example"
  game := mkBoard false [(4, wK), (63, bK)]
  mainline :=
    [ ⟨⟨63, 62, none⟩, mkBoard true [(4, wK), (62, bK)]⟩,
      ⟨⟨4, 12, none⟩, mkBoard false [(12, wK), (62, bK)]⟩ ]
  cp := 250
  pov := true

/-- A mainline of odd length 3: 1... Kh8-g8 2. Ke1-e2 Kg8-g7. -/
def oddVar : Variation where
  id := "odd"
  game := mkBoard false [(4, wK), (63, bK)]
  mainline :=
    [ ⟨⟨63, 62, none⟩, mkBoard true [(4, wK), (62, bK)]⟩,
      ⟨⟨4, 12, none⟩, mkBoard false [(12, wK), (62, bK)]⟩,
      ⟨⟨62, 61, none⟩, mkBoard true [(12, wK), (61, bK)]⟩ ]
  cp := 0
  pov := true

/-- A six-ply line in which the pov side promotes on its first move
(b7-b8=Q), loses the new queen and then a rook, for a net material drop of
6 by ply 5: 1... Kh8-g8 2. b8=Q Ra8xb8 3. Rh1-b1 Rb8xb1 4. Ke1-e2. -/
def sacVar : Variation where
  id := "sac"
  game := mkBoard false [(49, wP), (7, wR), (4, wK), (63, bK), (56, bR)]
  mainline :=
    [ ⟨⟨63, 62, none⟩, mkBoard true [(49, wP), (7, wR), (4, wK), (62, bK), (56, bR)]⟩,
      ⟨⟨49, 57, some QUEEN⟩, mkBoard false [(57, wQ), (7, wR), (4, wK), (62, bK), (56, bR)]⟩,
      ⟨⟨56, 57, none⟩, mkBoard true [(7, wR), (4, wK), (62, bK), (57, bR)]⟩,
      ⟨⟨7, 1, none⟩, mkBoard false [(1, wR), (4, wK), (62, bK), (57, bR)]⟩,
      ⟨⟨57, 1, none⟩, mkBoard true [(4, wK), (62, bK), (1, bR)]⟩,
      ⟨⟨4, 12, none⟩, mkBoard false [(12, wK), (62, bK), (1, bR)]⟩ ]
  cp := 0
  pov := true

/-- A variation with an empty mainline. -/
def emptyVar : Variation where
  id := "empty"
  game := mkBoard true [(4, wK), (60, bK)]
  mainline := []
  cp := 0
  pov := true

/-! ### Generic lemmas about the `Except` plumbing -/

theorem except_bind_ok {α β : Type} {x : Except String α} {f : α → Except String β}
    {b : β} (h : x >>= f = .ok b) : ∃ a, x = .ok a ∧ f a = .ok b := by
  cases x with
  | error e => exact (Except.noConfusion h)
  | ok a => exact ⟨a, rfl, h⟩

theorem except_pure_ok {α : Type} {a b : α}
    (h : (pure a : Except String α) = .ok b) : a = b := by
  cases h
  rfl

theorem mem_boolTag {a t : String} {c : Bool} :
    a ∈ boolTag c t ↔ c = true ∧ a = t := by
  cases c <;> simp [boolTag]

theorem tagOfE_ok {x : Except String Bool} {t : String} {l : List String}
    (h : tagOfE x t = .ok l) : ∃ b, x = .ok b ∧ l = boolTag b t := by
  obtain ⟨b, hb, hl⟩ := except_bind_ok h
  exact ⟨b, hb, (except_pure_ok hl).symm⟩

theorem loopE_ok_of_body_ok {α : Type} {f : α → Except String (Option Bool)}
    {d : Bool} {l : List α} (h : ∀ a ∈ l, ∃ r, f a = .ok r) :
    ∃ b, loopE f d l = .ok b := by
  induction l with
  | nil => exact ⟨d, rfl⟩
  | cons a l ih =>
    obtain ⟨r, hr⟩ := h a (List.mem_cons_self a l)
    obtain ⟨b, hb⟩ := ih (fun x hx => h x (List.mem_cons_of_mem a hx))
    cases r with
    | some rb => exact ⟨rb, by simp [loopE, hr]⟩
    | none => exact ⟨b, by simp [loopE, hr, hb]⟩

theorem ok_bind {α β : Type} (a : α) (f : α → Except String β) :
    (Except.ok a >>= f : Except String β) = f a := rfl

theorem error_bind {α β : Type} (e : String) (f : α → Except String β) :
    ((Except.error e : Except String α) >>= f) = Except.error e := rfl

theorem foldlM_ok_of_body_ok {α β : Type} {f : β → α → Except String β}
    {l : List α} (h : ∀ acc, ∀ a ∈ l, ∃ r, f acc a = .ok r) :
    ∀ init, ∃ r, List.foldlM f init l = .ok r := by
  induction l with
  | nil => exact fun init => ⟨init, rfl⟩
  | cons a l ih =>
    intro init
    obtain ⟨r, hr⟩ := h init a (List.mem_cons_self a l)
    obtain ⟨r2, hr2⟩ := ih (fun acc x hx => h acc x (List.mem_cons_of_mem a hx)) r
    refine ⟨r2, ?_⟩
    simp only [List.foldlM, hr]
    exact hr2


/-- Whenever `cook` succeeds, its output decomposes into the per-block
tag lists in source order, with the side-attack block seeing exactly the
previously accumulated tags. -/
theorem cook_ok_parts (v : Variation) (tags : List String) (h : cook v = .ok tags) :
    ∃ b1 b3 b7 b8 b10 b11 b14 b15 b18 b25 b26 b27,
      mateBlock v = .ok b1 ∧
      deflectionBlock v = .ok b3 ∧
      defensiveBlock v = .ok b7 ∧
      tagOfE (sacrifice v) "sacrifice" = .ok b8 ∧
      tagOfE (fork v) "fork" = .ok b10 ∧
      tagOfE (hanging_piece v) "hangingPiece" = .ok b11 ∧
      tagOfE (exposed_king v) "exposedKing" = .ok b14 ∧
      tagOfE (skewer v) "skewer" = .ok b15 ∧
      pinBlock v = .ok b18 ∧
      tagOfE (capturing_defender v) "capturingDefender" = .ok b25 ∧
      endgameBlock v = .ok b26 ∧
      sideAttackIf v (cookAcc v b1 b3 b7 b8 b10 b11 b14 b15 b18 b25 b26) = .ok b27 ∧
      tags = cookAcc v b1 b3 b7 b8 b10 b11 b14 b15 b18 b25 b26 ++ b27 ++ [lengthTag v] := by
  unfold cook at h
  cases hxb1 : mateBlock v with
  | error e =>
    rw [hxb1] at h
    simp only [error_bind] at h
    exact Except.noConfusion h
  | ok b1 =>
  rw [hxb1] at h
  simp only [ok_bind] at h
  cases hxb3 : deflectionBlock v with
  | error e =>
    rw [hxb3] at h
    simp only [error_bind] at h
    exact Except.noConfusion h
  | ok b3 =>
  rw [hxb3] at h
  simp only [ok_bind] at h
  cases hxb7 : defensiveBlock v with
  | error e =>
    rw [hxb7] at h
    simp only [error_bind] at h
    exact Except.noConfusion h
  | ok b7 =>
  rw [hxb7] at h
  simp only [ok_bind] at h
  cases hxb8 : tagOfE (sacrifice v) "sacrifice" with
  | error e =>
    rw [hxb8] at h
    simp only [error_bind] at h
    exact Except.noConfusion h
  | ok b8 =>
  rw [hxb8] at h
  simp only [ok_bind] at h
  cases hxb10 : tagOfE (fork v) "fork" with
  | error e =>
    rw [hxb10] at h
    simp only [error_bind] at h
    exact Except.noConfusion h
  | ok b10 =>
  rw [hxb10] at h
  simp only [ok_bind] at h
  cases hxb11 : tagOfE (hanging_piece v) "hangingPiece" with
  | error e =>
    rw [hxb11] at h
    simp only [error_bind] at h
    exact Except.noConfusion h
  | ok b11 =>
  rw [hxb11] at h
  simp only [ok_bind] at h
  cases hxb14 : tagOfE (exposed_king v) "exposedKing" with
  | error e =>
    rw [hxb14] at h
    simp only [error_bind] at h
    exact Except.noConfusion h
  | ok b14 =>
  rw [hxb14] at h
  simp only [ok_bind] at h
  cases hxb15 : tagOfE (skewer v) "skewer" with
  | error e =>
    rw [hxb15] at h
    simp only [error_bind] at h
    exact Except.noConfusion h
  | ok b15 =>
  rw [hxb15] at h
  simp only [ok_bind] at h
  cases hxb18 : pinBlock v with
  | error e =>
    rw [hxb18] at h
    simp only [error_bind] at h
    exact Except.noConfusion h
  | ok b18 =>
  rw [hxb18] at h
  simp only [ok_bind] at h
  cases hxb25 : tagOfE (capturing_defender v) "capturingDefender" with
  | error e =>
    rw [hxb25] at h
    simp only [error_bind] at h
    exact Except.noConfusion h
  | ok b25 =>
  rw [hxb25] at h
  simp only [ok_bind] at h
  cases hxb26 : endgameBlock v with
  | error e =>
    rw [hxb26] at h
    simp only [error_bind] at h
    exact Except.noConfusion h
  | ok b26 =>
  rw [hxb26] at h
  simp only [ok_bind] at h
  cases hxb27 : sideAttackIf v (cookAcc v b1 b3 b7 b8 b10 b11 b14 b15 b18 b25 b26) with
  | error e =>
    rw [hxb27] at h
    simp only [error_bind] at h
    exact Except.noConfusion h
  | ok b27 =>
  rw [hxb27] at h
  simp only [ok_bind] at h
  refine ⟨b1, b3, b7, b8, b10, b11, b14, b15, b18, b25, b26, b27,
    rfl, rfl, rfl, rfl, rfl, rfl, rfl, rfl, rfl, rfl, rfl, hxb27, ?_⟩
  exact (except_pure_ok h).symm

/-! ### Characterizations of the individual blocks -/

def mateInTags : List String :=
  ["mateIn1", "mateIn2", "mateIn3", "mateIn4", "mateIn5"]

def matePatternTags : List String :=
  ["smotheredMate", "backRankMate", "anastasiaMate", "hookMate", "arabianMate",
   "bodenMate", "doubleBishopMate", "dovetailMate"]

theorem mate_in_of_not_checkmate (v : Variation)
    (h : (endBoard v).is_checkmate = false) : mate_in v = none := by
  unfold mate_in
  rw [h]
  simp

theorem mate_in_of_checkmate (v : Variation)
    (h : (endBoard v).is_checkmate = true) :
    ∃ mt, mate_in v = some mt ∧ mt ∈ mateInTags := by
  unfold mate_in
  rw [h]
  simp only [Bool.not_true, Bool.false_eq_true, if_false, mateInTags]
  split
  · exact ⟨"mateIn1", rfl, by simp⟩
  · split
    · exact ⟨"mateIn2", rfl, by simp⟩
    · split
      · exact ⟨"mateIn3", rfl, by simp⟩
      · split
        · exact ⟨"mateIn4", rfl, by simp⟩
        · exact ⟨"mateIn5", rfl, by simp⟩

theorem checkmate_of_mate_in (v : Variation) (mt : String)
    (h : mate_in v = some mt) : (endBoard v).is_checkmate = true := by
  cases hc : (endBoard v).is_checkmate
  · rw [mate_in_of_not_checkmate v hc] at h
    exact Option.noConfusion h
  · rfl

theorem mate_in_mem (v : Variation) (mt : String) (h : mate_in v = some mt) :
    mt ∈ mateInTags := by
  obtain ⟨mt2, h2, hmem⟩ := mate_in_of_checkmate v (checkmate_of_mate_in v mt h)
  rw [h] at h2
  cases h2
  exact hmem

theorem count_boolTag (s t : String) (c : Bool) :
    (boolTag c t).count s = if c = true ∧ t = s then 1 else 0 := by
  cases c <;> by_cases hts : t = s <;> simp [boolTag, hts, List.count_cons]

theorem count_nil_of_ne {s : String} {l : List String}
    (h : ∀ x ∈ l, x ≠ s) : l.count s = 0 :=
  List.count_eq_zero.mpr (fun hmem => h s hmem rfl)

theorem boden_values (v : Variation) (x : Option String)
    (h : boden_or_double_bishop_mate v = .ok x) :
    x = none ∨ x = some "bodenMate" ∨ x = some "doubleBishopMate" := by
  unfold boden_or_double_bishop_mate at h
  cases hn : endNodeE v with
  | error e => rw [hn] at h; exact Except.noConfusion h
  | ok nd =>
    rw [hn] at h
    simp only [ok_bind] at h
    cases hk : kingE (endBoard v) (!v.pov) with
    | error e => rw [hk] at h; exact Except.noConfusion h
    | ok king =>
      rw [hk] at h
      simp only [ok_bind] at h
      cases hbs : (endBoard v).pieces BISHOP v.pov with
      | nil =>
        rw [hbs] at h
        simp only at h
        cases h
        exact Or.inl rfl
      | cons b0 tl =>
        cases tl with
        | nil =>
          rw [hbs] at h
          simp only at h
          cases h
          exact Or.inl rfl
        | cons b1 tl2 =>
          rw [hbs] at h
          simp only at h
          split at h
          · split at h
            · cases h; exact Or.inr (Or.inl rfl)
            · cases h; exact Or.inr (Or.inr rfl)
          · cases h; exact Or.inl rfl

theorem matePattern_ok_cases (v : Variation) (pat : Option String)
    (h : matePattern v = .ok pat) :
    (smothered_mate v = .ok true ∧ pat = some "smotheredMate") ∨
    (smothered_mate v = .ok false ∧ back_rank_mate v = .ok true ∧
      pat = some "backRankMate") ∨
    (smothered_mate v = .ok false ∧ back_rank_mate v = .ok false ∧
      anastasia_mate v = .ok true ∧ pat = some "anastasiaMate") ∨
    (smothered_mate v = .ok false ∧ back_rank_mate v = .ok false ∧
      anastasia_mate v = .ok false ∧ hook_mate v = .ok true ∧
      pat = some "hookMate") ∨
    (smothered_mate v = .ok false ∧ back_rank_mate v = .ok false ∧
      anastasia_mate v = .ok false ∧ hook_mate v = .ok false ∧
      arabian_mate v = .ok true ∧ pat = some "arabianMate") ∨
    (smothered_mate v = .ok false ∧ back_rank_mate v = .ok false ∧
      anastasia_mate v = .ok false ∧ hook_mate v = .ok false ∧
      arabian_mate v = .ok false ∧
      (∃ t, boden_or_double_bishop_mate v = .ok (some t) ∧ pat = some t)) ∨
    (smothered_mate v = .ok false ∧ back_rank_mate v = .ok false ∧
      anastasia_mate v = .ok false ∧ hook_mate v = .ok false ∧
      arabian_mate v = .ok false ∧ boden_or_double_bishop_mate v = .ok none ∧
      dovetail_mate v = .ok true ∧ pat = some "dovetailMate") ∨
    (smothered_mate v = .ok false ∧ back_rank_mate v = .ok false ∧
      anastasia_mate v = .ok false ∧ hook_mate v = .ok false ∧
      arabian_mate v = .ok false ∧ boden_or_double_bishop_mate v = .ok none ∧
      dovetail_mate v = .ok false ∧ pat = none) := by
  unfold matePattern at h
  cases hS : smothered_mate v with
  | error e => rw [hS] at h; exact Except.noConfusion h
  | ok s =>
    rw [hS] at h
    simp only [Except.bind] at h
    cases s with
    | true =>
      cases h
      exact Or.inl ⟨rfl, rfl⟩
    | false =>
      simp only [Bool.false_eq_true, if_false] at h
      cases hBR : back_rank_mate v with
      | error e => rw [hBR] at h; exact Except.noConfusion h
      | ok br =>
        rw [hBR] at h
        simp only [Except.bind] at h
        cases br with
        | true =>
          cases h
          exact Or.inr (Or.inl ⟨rfl, rfl, rfl⟩)
        | false =>
          simp only [Bool.false_eq_true, if_false] at h
          cases hAN : anastasia_mate v with
          | error e => rw [hAN] at h; exact Except.noConfusion h
          | ok an =>
            rw [hAN] at h
            simp only [Except.bind] at h
            cases an with
            | true =>
              cases h
              exact Or.inr (Or.inr (Or.inl ⟨rfl, rfl, rfl, rfl⟩))
            | false =>
              simp only [Bool.false_eq_true, if_false] at h
              cases hHK : hook_mate v with
              | error e => rw [hHK] at h; exact Except.noConfusion h
              | ok hk =>
                rw [hHK] at h
                simp only [Except.bind] at h
                cases hk with
                | true =>
                  cases h
                  exact Or.inr (Or.inr (Or.inr (Or.inl ⟨rfl, rfl, rfl, rfl, rfl⟩)))
                | false =>
                  simp only [Bool.false_eq_true, if_false] at h
                  cases hAR : arabian_mate v with
                  | error e => rw [hAR] at h; exact Except.noConfusion h
                  | ok ar =>
                    rw [hAR] at h
                    simp only [Except.bind] at h
                    cases ar with
                    | true =>
                      cases h
                      exact Or.inr (Or.inr (Or.inr (Or.inr (Or.inl
                        ⟨rfl, rfl, rfl, rfl, rfl, rfl⟩))))
                    | false =>
                      simp only [Bool.false_eq_true, if_false] at h
                      cases hBD : boden_or_double_bishop_mate v with
                      | error e => rw [hBD] at h; exact Except.noConfusion h
                      | ok bd =>
                        rw [hBD] at h
                        simp only [Except.bind] at h
                        cases bd with
                        | some t =>
                          cases h
                          exact Or.inr (Or.inr (Or.inr (Or.inr (Or.inr (Or.inl
                            ⟨rfl, rfl, rfl, rfl, rfl, t, rfl, rfl⟩)))))
                        | none =>
                          simp only at h
                          cases hDV : dovetail_mate v with
                          | error e => rw [hDV] at h; exact Except.noConfusion h
                          | ok dv =>
                            rw [hDV] at h
                            simp only [Except.bind] at h
                            cases dv with
                            | true =>
                              cases h
                              exact Or.inr (Or.inr (Or.inr (Or.inr (Or.inr
                                (Or.inr (Or.inl
                                ⟨rfl, rfl, rfl, rfl, rfl, rfl, rfl, rfl⟩))))))
                            | false =>
                              simp only [Bool.false_eq_true, if_false] at h
                              cases h
                              exact Or.inr (Or.inr (Or.inr (Or.inr (Or.inr
                                (Or.inr (Or.inr
                                ⟨rfl, rfl, rfl, rfl, rfl, rfl, rfl, rfl⟩))))))

theorem mateBlock_ok_cases (v : Variation) (b1 : List String)
    (h : mateBlock v = .ok b1) :
    (∃ mt pat, mate_in v = some mt ∧ matePattern v = .ok pat ∧
      b1 = [mt, "mate"] ++ pat.toList) ∨
    (mate_in v = none ∧ b1 = [evalTag v.cp]) := by
  unfold mateBlock at h
  cases hm : mate_in v with
  | some mt =>
    rw [hm] at h
    cases hp : matePattern v with
    | error e => rw [hp] at h; exact Except.noConfusion h
    | ok pat =>
      rw [hp] at h
      simp only [Except.bind] at h
      cases h
      exact Or.inl ⟨mt, pat, rfl, rfl, rfl⟩
  | none =>
    rw [hm] at h
    cases h
    exact Or.inr ⟨rfl, rfl⟩

theorem deflectionBlock_ok (v : Variation) (l : List String)
    (h : deflectionBlock v = .ok l) :
    ∃ d, deflection v = .ok d ∧ l = boolTag d "deflection" := by
  obtain ⟨d, hd, hl⟩ := except_bind_ok h
  refine ⟨d, hd, ?_⟩
  have h2 := except_pure_ok hl
  cases d
  · simp only [Bool.false_eq_true, if_false, overloading] at h2
    simpa [boolTag] using h2.symm
  · simp only [if_true] at h2
    simpa [boolTag] using h2.symm

theorem defensiveBlock_ok (v : Variation) (l : List String)
    (h : defensiveBlock v = .ok l) :
    ∃ dm, defensive_move v = .ok dm ∧
      l = boolTag (dm || check_escape v) "defensiveMove" := by
  obtain ⟨dm, hdm, hl⟩ := except_bind_ok h
  exact ⟨dm, hdm, (except_pure_ok hl).symm⟩

theorem pinBlock_ok (v : Variation) (l : List String)
    (h : pinBlock v = .ok l) :
    (pin_prevents_attack v = true ∧ l = ["pin"]) ∨
    (pin_prevents_attack v = false ∧
      ∃ pe, pin_prevents_escape v = .ok pe ∧ l = boolTag pe "pin") := by
  unfold pinBlock at h
  cases hpa : pin_prevents_attack v with
  | true =>
    rw [hpa] at h
    simp only [if_true] at h
    cases h
    exact Or.inl ⟨rfl, rfl⟩
  | false =>
    rw [hpa] at h
    simp only [Bool.false_eq_true, if_false] at h
    obtain ⟨pe, hpe, hl⟩ := except_bind_ok h
    exact Or.inr ⟨rfl, pe, hpe, (except_pure_ok hl).symm⟩

def endgameTags : List String :=
  ["pawnEndgame", "queenEndgame", "rookEndgame", "bishopEndgame",
   "knightEndgame", "queenRookEndgame"]

theorem endgameBlock_ok (v : Variation) (l : List String)
    (h : endgameBlock v = .ok l) :
    (piece_endgame v PAWN = .ok true ∧ l = ["pawnEndgame"]) ∨
    (piece_endgame v PAWN = .ok false ∧ piece_endgame v QUEEN = .ok true ∧
      l = ["queenEndgame"]) ∨
    (piece_endgame v PAWN = .ok false ∧ piece_endgame v QUEEN = .ok false ∧
      piece_endgame v ROOK = .ok true ∧ l = ["rookEndgame"]) ∨
    (piece_endgame v PAWN = .ok false ∧ piece_endgame v QUEEN = .ok false ∧
      piece_endgame v ROOK = .ok false ∧ piece_endgame v BISHOP = .ok true ∧
      l = ["bishopEndgame"]) ∨
    (piece_endgame v PAWN = .ok false ∧ piece_endgame v QUEEN = .ok false ∧
      piece_endgame v ROOK = .ok false ∧ piece_endgame v BISHOP = .ok false ∧
      piece_endgame v KNIGHT = .ok true ∧ l = ["knightEndgame"]) ∨
    (piece_endgame v PAWN = .ok false ∧ piece_endgame v QUEEN = .ok false ∧
      piece_endgame v ROOK = .ok false ∧ piece_endgame v BISHOP = .ok false ∧
      piece_endgame v KNIGHT = .ok false ∧
      ∃ qr, queen_rook_endgame v = .ok qr ∧ l = boolTag qr "queenRookEndgame") := by
  unfold endgameBlock at h
  cases hP : piece_endgame v PAWN with
  | error e => rw [hP] at h; exact Except.noConfusion h
  | ok p =>
    rw [hP] at h
    simp only [ok_bind] at h
    cases p with
    | true => cases h; exact Or.inl ⟨rfl, rfl⟩
    | false =>
      simp only [Bool.false_eq_true, if_false] at h
      cases hQ : piece_endgame v QUEEN with
      | error e => rw [hQ] at h; exact Except.noConfusion h
      | ok q =>
        rw [hQ] at h
        simp only [ok_bind] at h
        cases q with
        | true => cases h; exact Or.inr (Or.inl ⟨rfl, rfl, rfl⟩)
        | false =>
          simp only [Bool.false_eq_true, if_false] at h
          cases hR : piece_endgame v ROOK with
          | error e => rw [hR] at h; exact Except.noConfusion h
          | ok r =>
            rw [hR] at h
            simp only [ok_bind] at h
            cases r with
            | true => cases h; exact Or.inr (Or.inr (Or.inl ⟨rfl, rfl, rfl, rfl⟩))
            | false =>
              simp only [Bool.false_eq_true, if_false] at h
              cases hB : piece_endgame v BISHOP with
              | error e => rw [hB] at h; exact Except.noConfusion h
              | ok bi =>
                rw [hB] at h
                simp only [ok_bind] at h
                cases bi with
                | true =>
                  cases h
                  exact Or.inr (Or.inr (Or.inr (Or.inl ⟨rfl, rfl, rfl, rfl, rfl⟩)))
                | false =>
                  simp only [Bool.false_eq_true, if_false] at h
                  cases hN : piece_endgame v KNIGHT with
                  | error e => rw [hN] at h; exact Except.noConfusion h
                  | ok n =>
                    rw [hN] at h
                    simp only [ok_bind] at h
                    cases n with
                    | true =>
                      cases h
                      exact Or.inr (Or.inr (Or.inr (Or.inr (Or.inl
                        ⟨rfl, rfl, rfl, rfl, rfl, rfl⟩))))
                    | false =>
                      simp only [Bool.false_eq_true, if_false] at h
                      obtain ⟨qr, hqr, hl⟩ := except_bind_ok h
                      exact Or.inr (Or.inr (Or.inr (Or.inr (Or.inr
                        ⟨rfl, rfl, rfl, rfl, rfl, qr, hqr,
                          (except_pure_ok hl).symm⟩))))

theorem sideAttackBlock_ok (v : Variation) (l : List String)
    (h : sideAttackBlock v = .ok l) :
    (kingside_attack v = .ok true ∧ l = ["kingsideAttack"]) ∨
    (kingside_attack v = .ok false ∧
      ∃ q, queenside_attack v = .ok q ∧ l = boolTag q "queensideAttack") := by
  unfold sideAttackBlock at h
  cases hk : kingside_attack v with
  | error e => rw [hk] at h; exact Except.noConfusion h
  | ok k =>
    rw [hk] at h
    simp only [ok_bind] at h
    cases k with
    | true => cases h; exact Or.inl ⟨rfl, rfl⟩
    | false =>
      simp only [Bool.false_eq_true, if_false] at h
      obtain ⟨q, hq, hl⟩ := except_bind_ok h
      exact Or.inr ⟨rfl, q, hq, (except_pure_ok hl).symm⟩

theorem sideAttackIf_ok (v : Variation) (acc l : List String)
    (h : sideAttackIf v acc = .ok l) :
    ((!(acc.contains "backRankMate") && !(acc.contains "fork")) = true ∧
      sideAttackBlock v = .ok l) ∨
    ((!(acc.contains "backRankMate") && !(acc.contains "fork")) = false ∧
      l = []) := by
  unfold sideAttackIf at h
  cases hc : (!(acc.contains "backRankMate") && !(acc.contains "fork")) with
  | true =>
    rw [hc] at h
    simp only [if_true] at h
    exact Or.inl ⟨rfl, h⟩
  | false =>
    rw [hc] at h
    simp only [Bool.false_eq_true, if_false] at h
    exact Or.inr ⟨rfl, (except_pure_ok h).symm⟩

/-! ### Which strings each block can emit -/

def evalTags : List String := ["crushing", "advantage", "equality"]

def lengthTags : List String := ["oneMove", "short", "long", "veryLong"]

theorem matePattern_values (v : Variation) (t : String)
    (h : matePattern v = .ok (some t)) : t ∈ matePatternTags := by
  rcases matePattern_ok_cases v (some t) h with
    ⟨_, ht⟩ | ⟨_, _, ht⟩ | ⟨_, _, _, ht⟩ | ⟨_, _, _, _, ht⟩ |
    ⟨_, _, _, _, _, ht⟩ | ⟨_, _, _, _, _, ⟨t2, hbd, ht⟩⟩ |
    ⟨_, _, _, _, _, _, _, ht⟩ | ⟨_, _, _, _, _, _, _, ht⟩
  · cases ht; simp [matePatternTags]
  · cases ht; simp [matePatternTags]
  · cases ht; simp [matePatternTags]
  · cases ht; simp [matePatternTags]
  · cases ht; simp [matePatternTags]
  · rcases boden_values v (some t2) hbd with hv | hv | hv
    · exact Option.noConfusion hv
    · cases hv; cases ht; simp [matePatternTags]
    · cases hv; cases ht; simp [matePatternTags]
  · cases ht; simp [matePatternTags]
  · exact Option.noConfusion ht

theorem mateBlock_members (v : Variation) (l : List String)
    (h : mateBlock v = .ok l) :
    ∀ x ∈ l, x ∈ mateInTags ∨ x = "mate" ∨ x ∈ matePatternTags ∨ x ∈ evalTags := by
  intro x hx
  rcases mateBlock_ok_cases v l h with ⟨mt, pat, hm, hp, hl⟩ | ⟨hm, hl⟩
  · subst hl
    simp only [List.cons_append, List.nil_append, List.mem_cons] at hx
    rcases hx with hx | hx | hx
    · exact Or.inl (hx ▸ mate_in_mem v mt hm)
    · exact Or.inr (Or.inl hx)
    · cases pat with
      | none => simp at hx
      | some t =>
        simp only [Option.toList_some, List.mem_singleton] at hx
        exact Or.inr (Or.inr (Or.inl (hx ▸ matePattern_values v t hp)))
  · subst hl
    simp only [List.mem_singleton] at hx
    subst hx
    refine Or.inr (Or.inr (Or.inr ?_))
    unfold evalTag
    split
    · simp [evalTags]
    · split <;> simp [evalTags]

theorem lengthTag_mem (v : Variation) : lengthTag v ∈ lengthTags := by
  unfold lengthTag
  split
  · simp [lengthTags]
  · split
    · simp [lengthTags]
    · split <;> simp [lengthTags]

theorem mem_of_mem_boolTag {x t : String} {c : Bool} (h : x ∈ boolTag c t) :
    x = t :=
  (mem_boolTag.mp h).2

theorem count_eq_zero_of_members {l strs : List String} {s : String}
    (hm : ∀ x ∈ l, x ∈ strs) (hs : s ∉ strs) : l.count s = 0 :=
  count_nil_of_ne (fun x hx he => hs (he ▸ hm x hx))

theorem pinBlock_members (v : Variation) (l : List String)
    (h : pinBlock v = .ok l) : ∀ x ∈ l, x = "pin" := by
  intro x hx
  rcases pinBlock_ok v l h with ⟨_, hl⟩ | ⟨_, pe, _, hl⟩
  · subst hl; simpa using hx
  · subst hl; exact mem_of_mem_boolTag hx

theorem endgameBlock_members (v : Variation) (l : List String)
    (h : endgameBlock v = .ok l) : ∀ x ∈ l, x ∈ endgameTags := by
  intro x hx
  rcases endgameBlock_ok v l h with ⟨_, hl⟩ | ⟨_, _, hl⟩ | ⟨_, _, _, hl⟩ |
    ⟨_, _, _, _, hl⟩ | ⟨_, _, _, _, _, hl⟩ | ⟨_, _, _, _, _, qr, _, hl⟩
  · subst hl; simp only [List.mem_singleton] at hx; rw [hx]; simp [endgameTags]
  · subst hl; simp only [List.mem_singleton] at hx; rw [hx]; simp [endgameTags]
  · subst hl; simp only [List.mem_singleton] at hx; rw [hx]; simp [endgameTags]
  · subst hl; simp only [List.mem_singleton] at hx; rw [hx]; simp [endgameTags]
  · subst hl; simp only [List.mem_singleton] at hx; rw [hx]; simp [endgameTags]
  · subst hl; rw [mem_of_mem_boolTag hx]; simp [endgameTags]

theorem sideAttackIf_members (v : Variation) (acc l : List String)
    (h : sideAttackIf v acc = .ok l) :
    ∀ x ∈ l, x = "kingsideAttack" ∨ x = "queensideAttack" := by
  intro x hx
  rcases sideAttackIf_ok v acc l h with ⟨_, hblk⟩ | ⟨_, hl⟩
  · rcases sideAttackBlock_ok v l hblk with ⟨_, hl⟩ | ⟨_, q, _, hl⟩
    · subst hl; simp only [List.mem_singleton] at hx; exact Or.inl hx
    · subst hl; exact Or.inr (mem_of_mem_boolTag hx)
  · subst hl; simp at hx

/-- Every string `cook` can ever emit.  Note that `overloading`,
`selfInterference` and `checkEscape` are not among them. -/
def allTags : List String :=
  ["mateIn1", "mateIn2", "mateIn3", "mateIn4", "mateIn5", "mate",
   "smotheredMate", "backRankMate", "anastasiaMate", "hookMate", "arabianMate",
   "bodenMate", "doubleBishopMate", "dovetailMate",
   "crushing", "advantage", "equality",
   "attraction", "deflection", "advancedPawn", "doubleCheck", "quietMove",
   "defensiveMove", "sacrifice", "xRayAttack", "fork", "hangingPiece",
   "trappedPiece", "discoveredAttack", "exposedKing", "skewer", "interference",
   "intermezzo", "pin", "attackingF2F7", "clearance", "enPassant", "castling",
   "promotion", "underPromotion", "capturingDefender",
   "pawnEndgame", "queenEndgame", "rookEndgame", "bishopEndgame",
   "knightEndgame", "queenRookEndgame", "kingsideAttack", "queensideAttack",
   "oneMove", "short", "long", "veryLong"]

theorem sub_allTags_mateIn {x : String} (h : x ∈ mateInTags) : x ∈ allTags := by
  simp only [mateInTags, List.mem_cons, List.not_mem_nil, or_false] at h
  rcases h with h | h | h | h | h <;> (rw [h]; decide)

theorem sub_allTags_pattern {x : String} (h : x ∈ matePatternTags) :
    x ∈ allTags := by
  simp only [matePatternTags, List.mem_cons, List.not_mem_nil, or_false] at h
  rcases h with h | h | h | h | h | h | h | h <;> (rw [h]; decide)

theorem sub_allTags_eval {x : String} (h : x ∈ evalTags) : x ∈ allTags := by
  simp only [evalTags, List.mem_cons, List.not_mem_nil, or_false] at h
  rcases h with h | h | h <;> (rw [h]; decide)

theorem sub_allTags_endgame {x : String} (h : x ∈ endgameTags) : x ∈ allTags := by
  simp only [endgameTags, List.mem_cons, List.not_mem_nil, or_false] at h
  rcases h with h | h | h | h | h | h <;> (rw [h]; decide)

theorem sub_allTags_length {x : String} (h : x ∈ lengthTags) : x ∈ allTags := by
  simp only [lengthTags, List.mem_cons, List.not_mem_nil, or_false] at h
  rcases h with h | h | h | h <;> (rw [h]; decide)

/-- Master membership lemma: every tag `cook` returns comes from the fixed
universe `allTags`. -/
theorem cook_members (v : Variation) (tags : List String) (h : cook v = .ok tags) :
    ∀ x ∈ tags, x ∈ allTags := by
  obtain ⟨b1, b3, b7, b8, b10, b11, b14, b15, b18, b25, b26, b27,
    h1, h3, h7, h8, h10, h11, h14, h15, h18, h25, h26, h27, htags⟩ :=
    cook_ok_parts v tags h
  obtain ⟨c3, hd3, he3⟩ := deflectionBlock_ok v b3 h3
  obtain ⟨c7, hd7, he7⟩ := defensiveBlock_ok v b7 h7
  obtain ⟨c8, hd8, he8⟩ := tagOfE_ok h8
  obtain ⟨c10, hd10, he10⟩ := tagOfE_ok h10
  obtain ⟨c11, hd11, he11⟩ := tagOfE_ok h11
  obtain ⟨c14, hd14, he14⟩ := tagOfE_ok h14
  obtain ⟨c15, hd15, he15⟩ := tagOfE_ok h15
  obtain ⟨c25, hd25, he25⟩ := tagOfE_ok h25
  subst he3 he7 he8 he10 he11 he14 he15 he25
  intro x hx
  rw [htags] at hx
  simp only [cookAcc, List.append_assoc, List.mem_append, List.mem_singleton] at hx
  rcases hx with hx | hx | hx | hx | hx | hx | hx | hx | hx | hx | hx | hx | hx |
    hx | hx | hx | hx | hx | hx | hx | hx | hx | hx | hx | hx | hx | hx | hx
  · rcases mateBlock_members v b1 h1 x hx with hm | hm | hm | hm
    · exact sub_allTags_mateIn hm
    · rw [hm]; decide
    · exact sub_allTags_pattern hm
    · exact sub_allTags_eval hm
  · rw [mem_of_mem_boolTag hx]; decide
  · rw [mem_of_mem_boolTag hx]; decide
  · rw [mem_of_mem_boolTag hx]; decide
  · rw [mem_of_mem_boolTag hx]; decide
  · rw [mem_of_mem_boolTag hx]; decide
  · rw [mem_of_mem_boolTag hx]; decide
  · rw [mem_of_mem_boolTag hx]; decide
  · rw [mem_of_mem_boolTag hx]; decide
  · rw [mem_of_mem_boolTag hx]; decide
  · rw [mem_of_mem_boolTag hx]; decide
  · rw [mem_of_mem_boolTag hx]; decide
  · rw [mem_of_mem_boolTag hx]; decide
  · rw [mem_of_mem_boolTag hx]; decide
  · rw [mem_of_mem_boolTag hx]; decide
  · rw [mem_of_mem_boolTag hx]; decide
  · rw [mem_of_mem_boolTag hx]; decide
  · rw [pinBlock_members v b18 h18 x hx]; decide
  · rw [mem_of_mem_boolTag hx]; decide
  · rw [mem_of_mem_boolTag hx]; decide
  · rw [mem_of_mem_boolTag hx]; decide
  · rw [mem_of_mem_boolTag hx]; decide
  · rw [mem_of_mem_boolTag hx]; decide
  · rw [mem_of_mem_boolTag hx]; decide
  · rw [mem_of_mem_boolTag hx]; decide
  · exact sub_allTags_endgame (endgameBlock_members v b26 h26 x hx)
  · rcases sideAttackIf_members v _ b27 h27 x hx with hm | hm <;> (rw [hm]; decide)
  · rw [hx]; exact sub_allTags_length (lengthTag_mem v)

theorem mateBlock_count_eq_zero (v : Variation) (l : List String)
    (h : mateBlock v = .ok l) (s : String) (n1 : s ∉ mateInTags)
    (n2 : s ≠ "mate") (n3 : s ∉ matePatternTags) (n4 : s ∉ evalTags) :
    l.count s = 0 :=
  count_nil_of_ne (fun x hx he => by
    subst he
    rcases mateBlock_members v l h x hx with hm | hm | hm | hm
    · exact n1 hm
    · exact n2 hm
    · exact n3 hm
    · exact n4 hm)

theorem endgameBlock_count_eq_zero (v : Variation) (l : List String)
    (h : endgameBlock v = .ok l) (s : String) (n : s ∉ endgameTags) :
    l.count s = 0 :=
  count_nil_of_ne (fun x hx he => by
    subst he
    exact n (endgameBlock_members v l h x hx))

theorem pinBlock_count_eq_zero (v : Variation) (l : List String)
    (h : pinBlock v = .ok l) (s : String) (n : s ≠ "pin") : l.count s = 0 :=
  count_nil_of_ne (fun x hx he => by
    subst he
    exact n (pinBlock_members v l h x hx))

theorem sideAttackIf_count_eq_zero (v : Variation) (acc l : List String)
    (h : sideAttackIf v acc = .ok l) (s : String) (n1 : s ≠ "kingsideAttack")
    (n2 : s ≠ "queensideAttack") : l.count s = 0 :=
  count_nil_of_ne (fun x hx he => by
    subst he
    rcases sideAttackIf_members v acc l h x hx with hm | hm
    · exact n1 hm
    · exact n2 hm)

theorem count_pos_iff_mem {s : String} {l : List String} :
    0 < l.count s ↔ s ∈ l := by
  constructor
  · intro h
    by_contra hn
    rw [List.count_eq_zero.mpr hn] at h
    exact Nat.lt_irrefl 0 h
  · intro h
    exact List.count_pos_iff.mpr h

theorem zero_lt_ite_one {b : Bool} : (0 < if b = true then 1 else 0) ↔ b = true := by
  cases b <;> simp

theorem lengthTag_count_eq_zero (v : Variation) (s : String)
    (n : s ∉ lengthTags) : ([lengthTag v]).count s = 0 :=
  count_nil_of_ne (fun x hx he => by
    subst he
    simp only [List.mem_singleton] at hx
    exact n (hx ▸ lengthTag_mem v))

/-! ### The claims -/

/-- C9: the `overloading` detector is the permanently-false stub, and the
tag `overloading` never appears in `cook`'s output. -/
theorem c9_overloading_stub :
    (∀ v : Variation, overloading v = false) ∧
    (∀ (v : Variation) (tags : List String), cook v = .ok tags →
      "overloading" ∉ tags) := by
  refine ⟨fun v => rfl, fun v tags h hmem => ?_⟩
  exact absurd (cook_members v tags h "overloading" hmem) (by decide)

/-- C9 witness: the second part applied to the concrete two-ply example. -/
theorem c9_overloading_stub_witness :
    "overloading" ∉ ["advantage", "oneMove"] :=
  c9_overloading_stub.2 exVar ["advantage", "oneMove"] rfl

/-- C10: `cook` never emits the strings `selfInterference` or
`checkEscape`; a line satisfying `self_interference` or `interference`
contributes the single tag `interference` (at most once), and a line
satisfying `defensive_move` or `check_escape` contributes the single tag
`defensiveMove` (at most once). -/
theorem c10_interference_defensive_naming (v : Variation) (tags : List String)
    (h : cook v = .ok tags) :
    "selfInterference" ∉ tags ∧ "checkEscape" ∉ tags ∧
    tags.count "interference" ≤ 1 ∧ tags.count "defensiveMove" ≤ 1 ∧
    ("interference" ∈ tags ↔
      (self_interference v = true ∨ interference v = true)) ∧
    ("defensiveMove" ∈ tags ↔
      (defensive_move v = .ok true ∨ check_escape v = true)) := by
  obtain ⟨b1, b3, b7, b8, b10, b11, b14, b15, b18, b25, b26, b27,
    h1, h3, h7, h8, h10, h11, h14, h15, h18, h25, h26, h27, htags⟩ :=
    cook_ok_parts v tags h
  obtain ⟨c3, hd3, he3⟩ := deflectionBlock_ok v b3 h3
  obtain ⟨c7, hd7, he7⟩ := defensiveBlock_ok v b7 h7
  obtain ⟨c8, hd8, he8⟩ := tagOfE_ok h8
  obtain ⟨c10, hd10, he10⟩ := tagOfE_ok h10
  obtain ⟨c11, hd11, he11⟩ := tagOfE_ok h11
  obtain ⟨c14, hd14, he14⟩ := tagOfE_ok h14
  obtain ⟨c15, hd15, he15⟩ := tagOfE_ok h15
  obtain ⟨c25, hd25, he25⟩ := tagOfE_ok h25
  subst he3 he7 he8 he10 he11 he14 he15 he25
  have hcntI : tags.count "interference" =
      (if (self_interference v || interference v) = true then 1 else 0) := by
    rw [htags]
    simp only [cookAcc, List.append_assoc, List.count_append]
    rw [mateBlock_count_eq_zero v b1 h1 _ (by decide) (by decide) (by decide)
        (by decide),
      pinBlock_count_eq_zero v b18 h18 _ (by decide),
      endgameBlock_count_eq_zero v b26 h26 _ (by decide),
      sideAttackIf_count_eq_zero v _ b27 h27 _ (by decide) (by decide),
      lengthTag_count_eq_zero v _ (by decide)]
    simp [count_boolTag]
  have hcntD : tags.count "defensiveMove" =
      (if (c7 || check_escape v) = true then 1 else 0) := by
    rw [htags]
    simp only [cookAcc, List.append_assoc, List.count_append]
    rw [mateBlock_count_eq_zero v b1 h1 _ (by decide) (by decide) (by decide)
        (by decide),
      pinBlock_count_eq_zero v b18 h18 _ (by decide),
      endgameBlock_count_eq_zero v b26 h26 _ (by decide),
      sideAttackIf_count_eq_zero v _ b27 h27 _ (by decide) (by decide),
      lengthTag_count_eq_zero v _ (by decide)]
    simp [count_boolTag]
  refine ⟨fun hmem => absurd (cook_members v tags h _ hmem) (by decide),
    fun hmem => absurd (cook_members v tags h _ hmem) (by decide), ?_, ?_, ?_, ?_⟩
  · rw [hcntI]; split <;> omega
  · rw [hcntD]; split <;> omega
  · rw [← count_pos_iff_mem, hcntI, zero_lt_ite_one]
    exact iff_of_eq (Bool.or_eq_true _ _)
  · rw [← count_pos_iff_mem, hcntD, zero_lt_ite_one, Bool.or_eq_true]
    constructor
    · rintro (hc | hc)
      · exact Or.inl (hc ▸ hd7)
      · exact Or.inr hc
    · rintro (hc | hc)
      · rw [hd7] at hc
        cases hc
        exact Or.inl rfl
      · exact Or.inr hc

theorem count_singleton_str (u t : String) :
    ([t]).count u = if u = t then 1 else 0 := by
  by_cases hu : u = t
  · rw [if_pos hu, hu]
    simp
  · rw [if_neg hu]
    exact count_nil_of_ne (fun x hx he => by
      simp only [List.mem_singleton] at hx
      exact hu (he ▸ hx))

theorem count_lengthTag_self (v : Variation) (u : String) :
    ([lengthTag v]).count u = if u = lengthTag v then 1 else 0 := by
  by_cases hu : u = lengthTag v
  · rw [if_pos hu, hu]
    simp
  · rw [if_neg hu]
    exact count_nil_of_ne (fun x hx he => by
      simp only [List.mem_singleton] at hx
      exact hu (he ▸ hx))

/-- C3: `cook` always emits exactly one length tag, it is the last element
of the returned list, and it is determined solely by the mainline length:
2 gives `oneMove`, 4 gives `short`, at least 8 gives `veryLong`, and any
other length gives `long`. -/
theorem c3_length_tag (v : Variation) (tags : List String)
    (h : cook v = .ok tags) :
    tags.getLast? = some (lengthTag v) ∧
    (∀ u ∈ lengthTags, tags.count u = if u = lengthTag v then 1 else 0) ∧
    lengthTag v = (if v.mainline.length = 2 then "oneMove"
      else if v.mainline.length = 4 then "short"
      else if v.mainline.length ≥ 8 then "veryLong" else "long") := by
  obtain ⟨b1, b3, b7, b8, b10, b11, b14, b15, b18, b25, b26, b27,
    h1, h3, h7, h8, h10, h11, h14, h15, h18, h25, h26, h27, htags⟩ :=
    cook_ok_parts v tags h
  obtain ⟨c3, hd3, he3⟩ := deflectionBlock_ok v b3 h3
  obtain ⟨c7, hd7, he7⟩ := defensiveBlock_ok v b7 h7
  obtain ⟨c8, hd8, he8⟩ := tagOfE_ok h8
  obtain ⟨c10, hd10, he10⟩ := tagOfE_ok h10
  obtain ⟨c11, hd11, he11⟩ := tagOfE_ok h11
  obtain ⟨c14, hd14, he14⟩ := tagOfE_ok h14
  obtain ⟨c15, hd15, he15⟩ := tagOfE_ok h15
  obtain ⟨c25, hd25, he25⟩ := tagOfE_ok h25
  subst he3 he7 he8 he10 he11 he14 he15 he25
  refine ⟨?_, ?_, ?_⟩
  · rw [htags, List.getLast?_concat]
  · intro u hu
    simp only [lengthTags, List.mem_cons, List.not_mem_nil, or_false] at hu
    rcases hu with hu | hu | hu | hu <;> subst hu <;>
      (rw [htags]
       simp only [cookAcc, List.append_assoc, List.count_append]
       rw [mateBlock_count_eq_zero v b1 h1 _ (by decide) (by decide) (by decide)
           (by decide),
         pinBlock_count_eq_zero v b18 h18 _ (by decide),
         endgameBlock_count_eq_zero v b26 h26 _ (by decide),
         sideAttackIf_count_eq_zero v _ b27 h27 _ (by decide) (by decide),
         count_lengthTag_self]
       simp [count_boolTag])
  · unfold lengthTag
    by_cases h2 : v.mainline.length = 2
    · simp [h2]
    · by_cases h4 : v.mainline.length = 4
      · simp [h2, h4]
      · by_cases h8 : v.mainline.length ≥ 8
        · simp [h2, h4, h8]
        · simp [h2, h4, h8]

/-- C3 witness: the concrete two-ply example has mainline length 2 and its
tag list ends in the single length tag `oneMove`. -/
theorem c3_length_tag_witness :
    (["advantage", "oneMove"] : List String).getLast? = some (lengthTag exVar) ∧
    (∀ u ∈ lengthTags, (["advantage", "oneMove"] : List String).count u =
      if u = lengthTag exVar then 1 else 0) ∧
    lengthTag exVar = (if exVar.mainline.length = 2 then "oneMove"
      else if exVar.mainline.length = 4 then "short"
      else if exVar.mainline.length ≥ 8 then "veryLong" else "long") :=
  c3_length_tag exVar ["advantage", "oneMove"] rfl

theorem mateBlock_mate_case (v : Variation) (b1 : List String)
    (h : mateBlock v = .ok b1) (hcm : (endBoard v).is_checkmate = true) :
    ∃ mt pat, mate_in v = some mt ∧ matePattern v = .ok pat ∧
      b1 = [mt, "mate"] ++ pat.toList := by
  rcases mateBlock_ok_cases v b1 h with hcase | ⟨hm, _⟩
  · exact hcase
  · obtain ⟨mt, hmt, _⟩ := mate_in_of_checkmate v hcm
    rw [hm] at hmt
    exact Option.noConfusion hmt

theorem mateBlock_eval_case (v : Variation) (b1 : List String)
    (h : mateBlock v = .ok b1) (hcm : (endBoard v).is_checkmate = false) :
    b1 = [evalTag v.cp] := by
  rcases mateBlock_ok_cases v b1 h with ⟨mt, pat, hm, _, _⟩ | ⟨_, hb⟩
  · rw [checkmate_of_mate_in v mt hm] at hcm
    exact Bool.noConfusion hcm
  · exact hb

theorem mate_case_count (v : Variation) (b1 : List String)
    (h : mateBlock v = .ok b1) (hcm : (endBoard v).is_checkmate = true)
    (s : String) (n1 : s ∉ mateInTags) (n2 : s ≠ "mate")
    (n3 : s ∉ matePatternTags) : b1.count s = 0 := by
  obtain ⟨mt, pat, hm, hp, hb⟩ := mateBlock_mate_case v b1 h hcm
  subst hb
  refine count_nil_of_ne (fun x hx he => ?_)
  subst he
  simp only [List.cons_append, List.nil_append, List.mem_cons] at hx
  rcases hx with hx | hx | hx
  · exact n1 (hx ▸ mate_in_mem v mt hm)
  · exact n2 hx
  · cases pat with
    | none => simp at hx
    | some t =>
      simp only [Option.toList_some, List.mem_singleton] at hx
      exact n3 (hx ▸ matePattern_values v t hp)

/-- C2: when the final position is not checkmate, `cook` emits exactly one
of `crushing` / `advantage` / `equality`, chosen by the absolute `cp`
thresholds (over 600, over 200, otherwise); when it is checkmate, none of
the three appears. -/
theorem c2_eval_tags (v : Variation) (tags : List String)
    (h : cook v = .ok tags) :
    ((endBoard v).is_checkmate = false →
      tags.count "crushing" + tags.count "advantage" + tags.count "equality" = 1 ∧
      ("crushing" ∈ tags ↔ v.cp > 600) ∧
      ("advantage" ∈ tags ↔ (200 < v.cp ∧ v.cp ≤ 600)) ∧
      ("equality" ∈ tags ↔ v.cp ≤ 200)) ∧
    ((endBoard v).is_checkmate = true →
      "crushing" ∉ tags ∧ "advantage" ∉ tags ∧ "equality" ∉ tags) := by
  obtain ⟨b1, b3, b7, b8, b10, b11, b14, b15, b18, b25, b26, b27,
    h1, h3, h7, h8, h10, h11, h14, h15, h18, h25, h26, h27, htags⟩ :=
    cook_ok_parts v tags h
  obtain ⟨c3, hd3, he3⟩ := deflectionBlock_ok v b3 h3
  obtain ⟨c7, hd7, he7⟩ := defensiveBlock_ok v b7 h7
  obtain ⟨c8, hd8, he8⟩ := tagOfE_ok h8
  obtain ⟨c10, hd10, he10⟩ := tagOfE_ok h10
  obtain ⟨c11, hd11, he11⟩ := tagOfE_ok h11
  obtain ⟨c14, hd14, he14⟩ := tagOfE_ok h14
  obtain ⟨c15, hd15, he15⟩ := tagOfE_ok h15
  obtain ⟨c25, hd25, he25⟩ := tagOfE_ok h25
  subst he3 he7 he8 he10 he11 he14 he15 he25
  have key : ∀ s : String, s ∈ evalTags → tags.count s = b1.count s := by
    intro s hs
    simp only [evalTags, List.mem_cons, List.not_mem_nil, or_false] at hs
    rcases hs with hs | hs | hs <;> subst hs <;>
      (rw [htags]
       simp only [cookAcc, List.append_assoc, List.count_append]
       rw [pinBlock_count_eq_zero v b18 h18 _ (by decide),
         endgameBlock_count_eq_zero v b26 h26 _ (by decide),
         sideAttackIf_count_eq_zero v _ b27 h27 _ (by decide) (by decide),
         lengthTag_count_eq_zero v _ (by decide)]
       simp [count_boolTag])
  constructor
  · intro hcm
    have hb1 := mateBlock_eval_case v b1 h1 hcm
    subst hb1
    have hcnt : ∀ s ∈ evalTags, tags.count s = if s = evalTag v.cp then 1 else 0 := by
      intro s hs
      rw [key s hs, count_singleton_str]
    have hmem : ∀ s ∈ evalTags, (s ∈ tags ↔ s = evalTag v.cp) := by
      intro s hs
      rw [← count_pos_iff_mem, hcnt s hs]
      constructor
      · intro hpos
        by_contra hne
        rw [if_neg hne] at hpos
        exact Nat.lt_irrefl 0 hpos
      · intro he
        rw [if_pos he]
        exact Nat.zero_lt_one
    rw [hcnt _ (by decide), hcnt _ (by decide), hcnt _ (by decide),
      hmem _ (by decide), hmem _ (by decide), hmem _ (by decide)]
    unfold evalTag
    by_cases hc6 : v.cp > 600
    · rw [if_pos hc6]
      refine ⟨by decide, ?_, ?_, ?_⟩
      · exact ⟨fun _ => hc6, fun _ => rfl⟩
      · exact ⟨fun hx => absurd hx (by decide),
          fun hr => absurd hr.2 (by omega)⟩
      · exact ⟨fun hx => absurd hx (by decide),
          fun hl => absurd hl (by omega)⟩
    · rw [if_neg hc6]
      by_cases hc2 : v.cp > 200
      · rw [if_pos hc2]
        refine ⟨by decide, ?_, ?_, ?_⟩
        · exact ⟨fun hx => absurd hx (by decide), fun hg => absurd hg hc6⟩
        · exact ⟨fun _ => ⟨hc2, by omega⟩, fun _ => rfl⟩
        · exact ⟨fun hx => absurd hx (by decide),
            fun hl => absurd hl (by omega)⟩
      · rw [if_neg hc2]
        refine ⟨by decide, ?_, ?_, ?_⟩
        · exact ⟨fun hx => absurd hx (by decide), fun hg => absurd hg hc6⟩
        · exact ⟨fun hx => absurd hx (by decide),
            fun hr => absurd hr.1 hc2⟩
        · exact ⟨fun _ => by omega, fun _ => rfl⟩
  · intro hcm
    have hz : ∀ s : String, s ∈ evalTags → tags.count s = 0 := by
      intro s hs
      rw [key s hs]
      refine mate_case_count v b1 h1 hcm s ?_ ?_ ?_ <;>
        (simp only [evalTags, List.mem_cons, List.not_mem_nil, or_false] at hs
         rcases hs with hs | hs | hs <;> subst hs <;> decide)
    refine ⟨?_, ?_, ?_⟩ <;>
      (intro hmem
       have := List.count_pos_iff.mpr hmem
       rw [hz _ (by decide)] at this
       exact Nat.lt_irrefl 0 this)

/-- C2 witness: the concrete two-ply example, cp = 250, no checkmate. -/
theorem c2_eval_tags_witness :
    ((endBoard exVar).is_checkmate = false →
      (["advantage", "oneMove"] : List String).count "crushing" +
        (["advantage", "oneMove"] : List String).count "advantage" +
        (["advantage", "oneMove"] : List String).count "equality" = 1 ∧
      ("crushing" ∈ (["advantage", "oneMove"] : List String) ↔ exVar.cp > 600) ∧
      ("advantage" ∈ (["advantage", "oneMove"] : List String) ↔
        (200 < exVar.cp ∧ exVar.cp ≤ 600)) ∧
      ("equality" ∈ (["advantage", "oneMove"] : List String) ↔ exVar.cp ≤ 200)) ∧
    ((endBoard exVar).is_checkmate = true →
      "crushing" ∉ (["advantage", "oneMove"] : List String) ∧
      "advantage" ∉ (["advantage", "oneMove"] : List String) ∧
      "equality" ∉ (["advantage", "oneMove"] : List String)) :=
  c2_eval_tags exVar ["advantage", "oneMove"] rfl

/-- C6: neither `kingsideAttack` nor `queensideAttack` ever co-occurs with
`backRankMate` or `fork`, and at most one of the two side-attack tags is
emitted. -/
theorem c6_side_attack_suppression (v : Variation) (tags : List String)
    (h : cook v = .ok tags) :
    (("backRankMate" ∈ tags ∨ "fork" ∈ tags) →
      "kingsideAttack" ∉ tags ∧ "queensideAttack" ∉ tags) ∧
    ¬("kingsideAttack" ∈ tags ∧ "queensideAttack" ∈ tags) := by
  obtain ⟨b1, b3, b7, b8, b10, b11, b14, b15, b18, b25, b26, b27,
    h1, h3, h7, h8, h10, h11, h14, h15, h18, h25, h26, h27, htags⟩ :=
    cook_ok_parts v tags h
  obtain ⟨c3, hd3, he3⟩ := deflectionBlock_ok v b3 h3
  obtain ⟨c7, hd7, he7⟩ := defensiveBlock_ok v b7 h7
  obtain ⟨c8, hd8, he8⟩ := tagOfE_ok h8
  obtain ⟨c10, hd10, he10⟩ := tagOfE_ok h10
  obtain ⟨c11, hd11, he11⟩ := tagOfE_ok h11
  obtain ⟨c14, hd14, he14⟩ := tagOfE_ok h14
  obtain ⟨c15, hd15, he15⟩ := tagOfE_ok h15
  obtain ⟨c25, hd25, he25⟩ := tagOfE_ok h25
  subst he3 he7 he8 he10 he11 he14 he15 he25
  have key : ∀ s : String, s = "kingsideAttack" ∨ s = "queensideAttack" →
      tags.count s = b27.count s := by
    intro s hs
    rcases hs with hs | hs <;> subst hs <;>
      (rw [htags]
       simp only [cookAcc, List.append_assoc, List.count_append]
       rw [mateBlock_count_eq_zero v b1 h1 _ (by decide) (by decide) (by decide)
           (by decide),
         pinBlock_count_eq_zero v b18 h18 _ (by decide),
         endgameBlock_count_eq_zero v b26 h26 _ (by decide),
         lengthTag_count_eq_zero v _ (by decide)]
       simp [count_boolTag])
  have hmem27 : ∀ s : String, s = "kingsideAttack" ∨ s = "queensideAttack" →
      (s ∈ tags ↔ s ∈ b27) := by
    intro s hs
    rw [← count_pos_iff_mem, key s hs, count_pos_iff_mem]
  have hacc : ∀ p : String, p = "backRankMate" ∨ p = "fork" → p ∈ tags →
      ∀ s : String, s = "kingsideAttack" ∨ s = "queensideAttack" → s ∉ tags := by
    intro p hp hpmem s hs hsmem
    have hs27 : s ∈ b27 := (hmem27 s hs).mp hsmem
    rcases sideAttackIf_ok v _ b27 h27 with ⟨hg, _⟩ | ⟨_, hb27⟩
    · simp only [Bool.and_eq_true, Bool.not_eq_true', List.contains] at hg
      rw [htags] at hpmem
      simp only [List.append_assoc, List.mem_append, List.mem_singleton] at hpmem
      rcases hpmem with hpacc | hp27 | hplen
      · have hcontains := List.elem_eq_true_of_mem hpacc
        rcases hp with hp | hp
        · rw [hp, hg.1] at hcontains
          exact Bool.noConfusion hcontains
        · rw [hp, hg.2] at hcontains
          exact Bool.noConfusion hcontains
      · have hv2 := sideAttackIf_members v _ b27 h27 p hp27
        rcases hp with hp | hp <;> rw [hp] at hv2 <;>
          rcases hv2 with hv | hv <;> exact absurd hv (by decide)
      · have hlen := lengthTag_mem v
        rw [← hplen] at hlen
        rcases hp with hp | hp <;> rw [hp] at hlen <;>
          exact absurd hlen (by decide)
    · rw [hb27] at hs27
      exact absurd hs27 (List.not_mem_nil s)
  refine ⟨fun hpf => ?_, fun hks => ?_⟩
  · rcases hpf with hp | hp
    · exact ⟨hacc "backRankMate" (Or.inl rfl) hp _ (Or.inl rfl),
        hacc "backRankMate" (Or.inl rfl) hp _ (Or.inr rfl)⟩
    · exact ⟨hacc "fork" (Or.inr rfl) hp _ (Or.inl rfl),
        hacc "fork" (Or.inr rfl) hp _ (Or.inr rfl)⟩
  · obtain ⟨hk, hq⟩ := hks
    have hk27 : "kingsideAttack" ∈ b27 := (hmem27 _ (Or.inl rfl)).mp hk
    have hq27 : "queensideAttack" ∈ b27 := (hmem27 _ (Or.inr rfl)).mp hq
    rcases sideAttackIf_ok v _ b27 h27 with ⟨_, hblk⟩ | ⟨_, hb27⟩
    · rcases sideAttackBlock_ok v b27 hblk with ⟨_, hb⟩ | ⟨_, q, _, hb⟩
      · subst hb
        simp only [List.mem_singleton] at hq27
        exact absurd hq27 (by decide)
      · subst hb
        exact absurd (mem_of_mem_boolTag hk27) (by decide)
    · rw [hb27] at hk27
      exact absurd hk27 (List.not_mem_nil _)

/-- C6 witness: applied to the concrete two-ply example. -/
theorem c6_side_attack_suppression_witness :
    (("backRankMate" ∈ (["advantage", "oneMove"] : List String) ∨
      "fork" ∈ (["advantage", "oneMove"] : List String)) →
      "kingsideAttack" ∉ (["advantage", "oneMove"] : List String) ∧
      "queensideAttack" ∉ (["advantage", "oneMove"] : List String)) ∧
    ¬("kingsideAttack" ∈ (["advantage", "oneMove"] : List String) ∧
      "queensideAttack" ∈ (["advantage", "oneMove"] : List String)) :=
  c6_side_attack_suppression exVar ["advantage", "oneMove"] rfl

theorem zero_lt_ite_one_iff {P : Prop} [Decidable P] :
    (0 < if P then 1 else 0) ↔ P := by
  by_cases hp : P
  · rw [if_pos hp]
    exact ⟨fun _ => hp, fun _ => Nat.zero_lt_one⟩
  · rw [if_neg hp]
    exact ⟨fun hlt => absurd hlt (Nat.lt_irrefl 0), fun hP => absurd hP hp⟩

theorem ne_of_mems {x y : String} {l1 l2 : List String} (hx : x ∈ l1)
    (hy : y ∈ l2) (hdisj : ∀ a ∈ l1, ∀ b ∈ l2, a ≠ b) : x ≠ y :=
  hdisj x hx y hy

/-- C1: at most one mate-pattern tag is ever emitted, only together with
`mate` and a `mateInN` tag (i.e. only when the final position is
checkmate); the emitted pattern tag is exactly the first match of the
priority chain `smothered > backRank > anastasia > hook > arabian >
boden/doubleBishop > dovetail` (`matePattern`), whose first-match
semantics over the individual detectors is restated in the last
conjunct. -/
theorem c1_mate_pattern_priority (v : Variation) (tags : List String)
    (h : cook v = .ok tags) :
    (∀ p1 ∈ matePatternTags, ∀ p2 ∈ matePatternTags,
      p1 ∈ tags → p2 ∈ tags → p1 = p2) ∧
    (∀ p ∈ matePatternTags, tags.count p ≤ 1) ∧
    (∀ p ∈ matePatternTags, p ∈ tags →
      "mate" ∈ tags ∧ (∃ mt, mate_in v = some mt ∧ mt ∈ tags) ∧
      (endBoard v).is_checkmate = true) ∧
    (∀ p ∈ matePatternTags,
      (p ∈ tags ↔ (endBoard v).is_checkmate = true ∧
        matePattern v = .ok (some p))) ∧
    (∀ pat, matePattern v = .ok pat →
      (smothered_mate v = .ok true ∧ pat = some "smotheredMate") ∨
      (smothered_mate v = .ok false ∧ back_rank_mate v = .ok true ∧
        pat = some "backRankMate") ∨
      (smothered_mate v = .ok false ∧ back_rank_mate v = .ok false ∧
        anastasia_mate v = .ok true ∧ pat = some "anastasiaMate") ∨
      (smothered_mate v = .ok false ∧ back_rank_mate v = .ok false ∧
        anastasia_mate v = .ok false ∧ hook_mate v = .ok true ∧
        pat = some "hookMate") ∨
      (smothered_mate v = .ok false ∧ back_rank_mate v = .ok false ∧
        anastasia_mate v = .ok false ∧ hook_mate v = .ok false ∧
        arabian_mate v = .ok true ∧ pat = some "arabianMate") ∨
      (smothered_mate v = .ok false ∧ back_rank_mate v = .ok false ∧
        anastasia_mate v = .ok false ∧ hook_mate v = .ok false ∧
        arabian_mate v = .ok false ∧
        (∃ t, boden_or_double_bishop_mate v = .ok (some t) ∧ pat = some t)) ∨
      (smothered_mate v = .ok false ∧ back_rank_mate v = .ok false ∧
        anastasia_mate v = .ok false ∧ hook_mate v = .ok false ∧
        arabian_mate v = .ok false ∧ boden_or_double_bishop_mate v = .ok none ∧
        dovetail_mate v = .ok true ∧ pat = some "dovetailMate") ∨
      (smothered_mate v = .ok false ∧ back_rank_mate v = .ok false ∧
        anastasia_mate v = .ok false ∧ hook_mate v = .ok false ∧
        arabian_mate v = .ok false ∧ boden_or_double_bishop_mate v = .ok none ∧
        dovetail_mate v = .ok false ∧ pat = none)) := by
  obtain ⟨b1, b3, b7, b8, b10, b11, b14, b15, b18, b25, b26, b27,
    h1, h3, h7, h8, h10, h11, h14, h15, h18, h25, h26, h27, htags⟩ :=
    cook_ok_parts v tags h
  obtain ⟨c3, hd3, he3⟩ := deflectionBlock_ok v b3 h3
  obtain ⟨c7, hd7, he7⟩ := defensiveBlock_ok v b7 h7
  obtain ⟨c8, hd8, he8⟩ := tagOfE_ok h8
  obtain ⟨c10, hd10, he10⟩ := tagOfE_ok h10
  obtain ⟨c11, hd11, he11⟩ := tagOfE_ok h11
  obtain ⟨c14, hd14, he14⟩ := tagOfE_ok h14
  obtain ⟨c15, hd15, he15⟩ := tagOfE_ok h15
  obtain ⟨c25, hd25, he25⟩ := tagOfE_ok h25
  subst he3 he7 he8 he10 he11 he14 he15 he25
  have key : ∀ p ∈ matePatternTags, tags.count p = b1.count p := by
    intro p hp
    simp only [matePatternTags, List.mem_cons, List.not_mem_nil, or_false] at hp
    rcases hp with hp | hp | hp | hp | hp | hp | hp | hp <;> subst hp <;>
      (rw [htags]
       simp only [cookAcc, List.append_assoc, List.count_append]
       rw [pinBlock_count_eq_zero v b18 h18 _ (by decide),
         endgameBlock_count_eq_zero v b26 h26 _ (by decide),
         sideAttackIf_count_eq_zero v _ b27 h27 _ (by decide) (by decide),
         lengthTag_count_eq_zero v _ (by decide)]
       simp [count_boolTag])
  have hsub : ∀ x, x ∈ b1 → x ∈ tags := by
    intro x hx
    rw [htags]
    simp only [cookAcc, List.append_assoc, List.mem_append]
    exact Or.inl hx
  cases hcm : (endBoard v).is_checkmate with
  | false =>
    have hb1 := mateBlock_eval_case v b1 h1 hcm
    have hz : ∀ p ∈ matePatternTags, tags.count p = 0 := by
      intro p hp
      rw [key p hp, hb1, count_singleton_str, if_neg]
      intro he
      have hev : evalTag v.cp ∈ evalTags := by
        unfold evalTag
        split
        · simp [evalTags]
        · split <;> simp [evalTags]
      exact ne_of_mems hp (he ▸ hev) (by decide) rfl
    have hnm : ∀ p ∈ matePatternTags, p ∉ tags := by
      intro p hp hmem
      have := List.count_pos_iff.mpr hmem
      rw [hz p hp] at this
      exact Nat.lt_irrefl 0 this
    refine ⟨fun p1 hp1 p2 hp2 hm1 _ => absurd hm1 (hnm p1 hp1),
      fun p hp => by rw [hz p hp]; omega,
      fun p hp hmem => absurd hmem (hnm p hp),
      fun p hp => ⟨fun hmem => absurd hmem (hnm p hp),
        fun ⟨hc, _⟩ => Bool.noConfusion hc⟩,
      matePattern_ok_cases v⟩
  | true =>
    obtain ⟨mt, pat, hm, hpat, hb1⟩ := mateBlock_mate_case v b1 h1 hcm
    have hcount : ∀ p ∈ matePatternTags,
        tags.count p = if pat = some p then 1 else 0 := by
      intro p hpmem
      rw [key p hpmem, hb1]
      have hmtne : (mt == p) = false := by
        have hne := ne_of_mems (mate_in_mem v mt hm) hpmem (by decide)
        simp [hne]
      have hmatene : (("mate" : String) == p) = false := by
        have hne : ("mate" : String) ≠ p :=
          @ne_of_mems "mate" p ["mate"] matePatternTags (by simp) hpmem (by decide)
        simp [hne]
      simp only [List.cons_append, List.nil_append, List.count_cons, hmtne,
        hmatene, Bool.false_eq_true, if_false, Nat.add_zero]
      cases pat with
      | none => simp
      | some t =>
        simp only [Option.toList_some]
        rw [count_singleton_str]
        simp only [Option.some.injEq]
        by_cases ht : p = t
        · rw [if_pos ht, if_pos ht.symm]
        · rw [if_neg ht, if_neg (fun he => ht he.symm)]
    have hmemiff : ∀ p ∈ matePatternTags, (p ∈ tags ↔ pat = some p) := by
      intro p hpmem
      rw [← count_pos_iff_mem, hcount p hpmem, zero_lt_ite_one_iff]
    refine ⟨?_, ?_, ?_, ?_, matePattern_ok_cases v⟩
    · intro p1 hp1 p2 hp2 hm1 hm2
      have e1 := (hmemiff p1 hp1).mp hm1
      have e2 := (hmemiff p2 hp2).mp hm2
      exact Option.some.inj (e1.symm.trans e2)
    · intro p hp
      rw [hcount p hp]
      split <;> omega
    · intro p hp _
      exact ⟨hsub "mate" (by rw [hb1]; simp),
        ⟨mt, hm, hsub mt (by rw [hb1]; simp)⟩, rfl⟩
    · intro p hp
      rw [hmemiff p hp]
      constructor
      · intro he
        exact ⟨rfl, he ▸ hpat⟩
      · rintro ⟨_, hmp⟩
        rw [hpat] at hmp
        exact Except.ok.inj hmp

/-- C1 witness: applied to the concrete two-ply example. -/
theorem c1_mate_pattern_priority_witness :
    (∀ p1 ∈ matePatternTags, ∀ p2 ∈ matePatternTags,
      p1 ∈ (["advantage", "oneMove"] : List String) →
      p2 ∈ (["advantage", "oneMove"] : List String) → p1 = p2) ∧
    (∀ p ∈ matePatternTags,
      (["advantage", "oneMove"] : List String).count p ≤ 1) ∧
    (∀ p ∈ matePatternTags, p ∈ (["advantage", "oneMove"] : List String) →
      "mate" ∈ (["advantage", "oneMove"] : List String) ∧
      (∃ mt, mate_in exVar = some mt ∧
        mt ∈ (["advantage", "oneMove"] : List String)) ∧
      (endBoard exVar).is_checkmate = true) ∧
    (∀ p ∈ matePatternTags,
      (p ∈ (["advantage", "oneMove"] : List String) ↔
        (endBoard exVar).is_checkmate = true ∧
        matePattern exVar = .ok (some p))) ∧
    (∀ pat, matePattern exVar = .ok pat →
      (smothered_mate exVar = .ok true ∧ pat = some "smotheredMate") ∨
      (smothered_mate exVar = .ok false ∧ back_rank_mate exVar = .ok true ∧
        pat = some "backRankMate") ∨
      (smothered_mate exVar = .ok false ∧ back_rank_mate exVar = .ok false ∧
        anastasia_mate exVar = .ok true ∧ pat = some "anastasiaMate") ∨
      (smothered_mate exVar = .ok false ∧ back_rank_mate exVar = .ok false ∧
        anastasia_mate exVar = .ok false ∧ hook_mate exVar = .ok true ∧
        pat = some "hookMate") ∨
      (smothered_mate exVar = .ok false ∧ back_rank_mate exVar = .ok false ∧
        anastasia_mate exVar = .ok false ∧ hook_mate exVar = .ok false ∧
        arabian_mate exVar = .ok true ∧ pat = some "arabianMate") ∨
      (smothered_mate exVar = .ok false ∧ back_rank_mate exVar = .ok false ∧
        anastasia_mate exVar = .ok false ∧ hook_mate exVar = .ok false ∧
        arabian_mate exVar = .ok false ∧
        (∃ t, boden_or_double_bishop_mate exVar = .ok (some t) ∧
          pat = some t)) ∨
      (smothered_mate exVar = .ok false ∧ back_rank_mate exVar = .ok false ∧
        anastasia_mate exVar = .ok false ∧ hook_mate exVar = .ok false ∧
        arabian_mate exVar = .ok false ∧
        boden_or_double_bishop_mate exVar = .ok none ∧
        dovetail_mate exVar = .ok true ∧ pat = some "dovetailMate") ∨
      (smothered_mate exVar = .ok false ∧ back_rank_mate exVar = .ok false ∧
        anastasia_mate exVar = .ok false ∧ hook_mate exVar = .ok false ∧
        arabian_mate exVar = .ok false ∧
        boden_or_double_bishop_mate exVar = .ok none ∧
        dovetail_mate exVar = .ok false ∧ pat = none)) :=
  c1_mate_pattern_priority exVar ["advantage", "oneMove"] rfl

/-- The claim's wording for one board of a single-piece-type endgame:
besides kings and pawns only the named piece kind remains, and at least
one such piece exists. -/
def egCheck (b : Board) (pt : PieceType) : Prop :=
  (∃ sp ∈ b.piece_map, sp.2.piece_type = pt) ∧
  (∀ sp ∈ b.piece_map, sp.2.piece_type ∈ [KING, PAWN, pt])

/-- The claim's wording for a single-piece-type endgame: `egCheck` on the
first two mainline positions. -/
def endgameCond (v : Variation) (pt : PieceType) : Prop :=
  ∃ n0 n1, v.mainline.get? 0 = some n0 ∧ v.mainline.get? 1 = some n1 ∧
    egCheck n0.board pt ∧ egCheck n1.board pt

/-- The claim's wording for one board of a queen-and-rook endgame: besides
kings and pawns only queens and rooks remain, with at least one of
each. -/
def qrCheck (b : Board) : Prop :=
  (∃ sp ∈ b.piece_map, sp.2.piece_type = QUEEN) ∧
  (∃ sp ∈ b.piece_map, sp.2.piece_type = ROOK) ∧
  (∀ sp ∈ b.piece_map, sp.2.piece_type ∈ [QUEEN, ROOK, PAWN, KING])

/-- The claim's wording for a queen-and-rook endgame. -/
def qrCond (v : Variation) : Prop :=
  ∃ n0 n1, v.mainline.get? 0 = some n0 ∧ v.mainline.get? 1 = some n1 ∧
    qrCheck n0.board ∧ qrCheck n1.board

theorem nodeE_ok {v : Variation} {i : Nat} {n : Node} (h : nodeE v i = .ok n) :
    v.mainline.get? i = some n := by
  unfold nodeE at h
  cases hg : v.mainline.get? i with
  | none => rw [hg] at h; exact Except.noConfusion h
  | some n2 =>
    rw [hg] at h
    cases h
    rfl

theorem mem_piece_map {b : Board} {sp : Nat × Piece} :
    sp ∈ b.piece_map ↔ sp.1 ∈ List.range 64 ∧ b.piece_at sp.1 = some sp.2 := by
  unfold Board.piece_map
  rw [List.mem_filterMap]
  constructor
  · rintro ⟨s, hs, hmap⟩
    cases hpa : b.piece_at s with
    | none => rw [hpa] at hmap; exact Option.noConfusion hmap
    | some p =>
      rw [hpa] at hmap
      have hmap2 : some (s, p) = some sp := hmap
      cases hmap2
      exact ⟨hs, hpa⟩
  · rintro ⟨hs, hpa⟩
    refine ⟨sp.1, hs, ?_⟩
    rw [hpa]
    rfl

theorem isEmpty_false_of_mem {l : List Nat} {a : Nat} (h : a ∈ l) :
    l.isEmpty = false := by
  cases l with
  | nil => exact absurd h (List.not_mem_nil a)
  | cons x xs => rfl

theorem pieces_exists (b : Board) (pt : PieceType) :
    ((!(b.pieces pt WHITE).isEmpty || !(b.pieces pt BLACK).isEmpty) = true) ↔
    (∃ sp ∈ b.piece_map, sp.2.piece_type = pt) := by
  simp only [Bool.or_eq_true, Bool.not_eq_true']
  constructor
  · rintro (hw | hb2)
    · have hne : b.pieces pt WHITE ≠ [] := by
        intro he
        rw [he] at hw
        exact Bool.noConfusion hw
      obtain ⟨s, hs⟩ := List.exists_mem_of_ne_nil _ hne
      unfold Board.pieces at hs
      rw [List.mem_filter] at hs
      obtain ⟨hrange, hbeq⟩ := hs
      have hpa : b.piece_at s = some ⟨pt, WHITE⟩ := by simpa using hbeq
      exact ⟨(s, ⟨pt, WHITE⟩), mem_piece_map.mpr ⟨hrange, hpa⟩, rfl⟩
    · have hne : b.pieces pt BLACK ≠ [] := by
        intro he
        rw [he] at hb2
        exact Bool.noConfusion hb2
      obtain ⟨s, hs⟩ := List.exists_mem_of_ne_nil _ hne
      unfold Board.pieces at hs
      rw [List.mem_filter] at hs
      obtain ⟨hrange, hbeq⟩ := hs
      have hpa : b.piece_at s = some ⟨pt, BLACK⟩ := by simpa using hbeq
      exact ⟨(s, ⟨pt, BLACK⟩), mem_piece_map.mpr ⟨hrange, hpa⟩, rfl⟩
  · rintro ⟨⟨s1, ppt, pc⟩, hsp, hpt⟩
    obtain ⟨hrange, hpa⟩ := mem_piece_map.mp hsp
    simp only at hpt hpa hrange
    rw [hpt] at hpa
    cases pc
    · refine Or.inr (@isEmpty_false_of_mem (b.pieces pt BLACK) s1 ?_)
      unfold Board.pieces
      rw [List.mem_filter]
      exact ⟨hrange, by rw [hpa]; simp [BLACK]⟩
    · refine Or.inl (@isEmpty_false_of_mem (b.pieces pt WHITE) s1 ?_)
      unfold Board.pieces
      rw [List.mem_filter]
      exact ⟨hrange, by rw [hpa]; simp [WHITE]⟩

theorem egCheck_iff (b : Board) (pt : PieceType) :
    (((!(b.pieces pt WHITE).isEmpty || !(b.pieces pt BLACK).isEmpty) &&
      b.piece_map.all (fun sp => [KING, PAWN, pt].contains sp.2.piece_type))
      = true) ↔ egCheck b pt := by
  rw [Bool.and_eq_true, pieces_exists]
  unfold egCheck
  constructor
  · rintro ⟨hex, hall⟩
    refine ⟨hex, fun sp hsp => ?_⟩
    rw [List.all_eq_true] at hall
    have := hall sp hsp
    simpa [List.contains] using this
  · rintro ⟨hex, hall⟩
    refine ⟨hex, ?_⟩
    rw [List.all_eq_true]
    intro sp hsp
    simpa [List.contains] using hall sp hsp

theorem piece_endgame_ok_elim (v : Variation) (pt : PieceType) (r : Bool)
    (h : piece_endgame v pt = .ok r) :
    ∃ n0 n1, v.mainline.get? 0 = some n0 ∧ v.mainline.get? 1 = some n1 ∧
      (r = true ↔ (egCheck n0.board pt ∧ egCheck n1.board pt)) := by
  unfold piece_endgame at h
  cases hn0 : nodeE v 0 with
  | error e => rw [hn0] at h; exact Except.noConfusion h
  | ok n0 =>
    rw [hn0] at h
    simp only [ok_bind] at h
    cases hn1 : nodeE v 1 with
    | error e => rw [hn1] at h; exact Except.noConfusion h
    | ok n1 =>
      rw [hn1] at h
      simp only [ok_bind] at h
      have hr := except_pure_ok h
      refine ⟨n0, n1, nodeE_ok hn0, nodeE_ok hn1, ?_⟩
      rw [← hr, List.all_eq_true]
      constructor
      · intro hall
        exact ⟨(egCheck_iff n0.board pt).mp (by simpa using hall n0.board (by simp)),
          (egCheck_iff n1.board pt).mp (by simpa using hall n1.board (by simp))⟩
      · rintro ⟨hc0, hc1⟩
        intro b hb
        simp only [List.mem_cons, List.not_mem_nil, or_false] at hb
        rcases hb with hb | hb <;> subst hb
        · simpa using (egCheck_iff n0.board pt).mpr hc0
        · simpa using (egCheck_iff n1.board pt).mpr hc1

theorem piece_endgame_true_cond (v : Variation) (pt : PieceType)
    (h : piece_endgame v pt = .ok true) : endgameCond v pt := by
  obtain ⟨n0, n1, h0, h1, hiff⟩ := piece_endgame_ok_elim v pt true h
  obtain ⟨hc0, hc1⟩ := hiff.mp rfl
  exact ⟨n0, n1, h0, h1, hc0, hc1⟩

theorem piece_endgame_false_cond (v : Variation) (pt : PieceType)
    (h : piece_endgame v pt = .ok false) : ¬ endgameCond v pt := by
  obtain ⟨n0, n1, h0, h1, hiff⟩ := piece_endgame_ok_elim v pt false h
  rintro ⟨m0, m1, hm0, hm1, hcm0, hcm1⟩
  rw [h0] at hm0
  rw [h1] at hm1
  cases hm0
  cases hm1
  exact Bool.noConfusion (hiff.mpr ⟨hcm0, hcm1⟩)

theorem endgameCond_excl (v : Variation) (te t : PieceType) (hK : t ≠ KING)
    (hP : t ≠ PAWN) (hte : t ≠ te) (hce : endgameCond v te)
    (hct : endgameCond v t) : False := by
  obtain ⟨n0, n1, hg0, hg1, hche, _⟩ := hce
  obtain ⟨m0, m1, hgm0, _, hcht, _⟩ := hct
  rw [hg0] at hgm0
  cases hgm0
  obtain ⟨⟨sp, hsp, hspt⟩, _⟩ := hcht
  have hmem := hche.2 sp hsp
  rw [hspt] at hmem
  simp only [List.mem_cons, List.not_mem_nil, or_false] at hmem
  rcases hmem with hm | hm | hm
  · exact hK hm
  · exact hP hm
  · exact hte hm

theorem qr_test_elim (b : Board)
    (h : (((b.piece_map.map Prod.snd).countP
        (fun p => p.piece_type == QUEEN) == 1 &&
      (b.piece_map.map Prod.snd).any (fun p => p.piece_type == ROOK) &&
      (b.piece_map.map Prod.snd).all
        (fun p => [QUEEN, ROOK, PAWN, KING].contains p.piece_type)) = true)) :
    qrCheck b := by
  simp only [Bool.and_eq_true] at h
  obtain ⟨⟨hq, hrk⟩, hall⟩ := h
  refine ⟨?_, ?_, ?_⟩
  · have hcnt : 0 < (b.piece_map.map Prod.snd).countP
        (fun p => p.piece_type == QUEEN) := by
      simp only [beq_iff_eq] at hq
      omega
    obtain ⟨p, hpmem, hptype⟩ := List.countP_pos_iff.mp hcnt
    obtain ⟨sp, hsp, hsnd⟩ := List.mem_map.mp hpmem
    refine ⟨sp, hsp, ?_⟩
    rw [show Prod.snd sp = sp.2 from rfl] at hsnd
    rw [hsnd]
    simpa using hptype
  · rw [List.any_eq_true] at hrk
    obtain ⟨p, hpmem, hptype⟩ := hrk
    obtain ⟨sp, hsp, hsnd⟩ := List.mem_map.mp hpmem
    refine ⟨sp, hsp, ?_⟩
    rw [show Prod.snd sp = sp.2 from rfl] at hsnd
    rw [hsnd]
    simpa using hptype
  · intro sp hsp
    rw [List.all_eq_true] at hall
    have := hall sp.2 (List.mem_map.mpr ⟨sp, hsp, rfl⟩)
    simpa [List.contains] using this

theorem queen_rook_true_cond (v : Variation)
    (h : queen_rook_endgame v = .ok true) : qrCond v := by
  unfold queen_rook_endgame at h
  cases hn0 : nodeE v 0 with
  | error e => rw [hn0] at h; exact Except.noConfusion h
  | ok n0 =>
    rw [hn0] at h
    simp only [ok_bind] at h
    cases hn1 : nodeE v 1 with
    | error e => rw [hn1] at h; exact Except.noConfusion h
    | ok n1 =>
      rw [hn1] at h
      simp only [ok_bind] at h
      have hr := except_pure_ok h
      rw [List.all_eq_true] at hr
      exact ⟨n0, n1, nodeE_ok hn0, nodeE_ok hn1,
        qr_test_elim n0.board (by simpa using hr n0.board (by simp)),
        qr_test_elim n1.board (by simpa using hr n1.board (by simp))⟩

theorem endgameBlock_single_iff (v : Variation) (b26 : List String)
    (h26 : endgameBlock v = .ok b26) :
    ("pawnEndgame" ∈ b26 ↔ endgameCond v PAWN) ∧
    ("queenEndgame" ∈ b26 ↔ endgameCond v QUEEN) ∧
    ("rookEndgame" ∈ b26 ↔ endgameCond v ROOK) ∧
    ("bishopEndgame" ∈ b26 ↔ endgameCond v BISHOP) ∧
    ("knightEndgame" ∈ b26 ↔ endgameCond v KNIGHT) ∧
    ("queenRookEndgame" ∈ b26 →
      (¬ endgameCond v PAWN ∧ ¬ endgameCond v QUEEN ∧ ¬ endgameCond v ROOK ∧
       ¬ endgameCond v BISHOP ∧ ¬ endgameCond v KNIGHT) ∧ qrCond v) ∧
    (∀ t1 ∈ b26, ∀ t2 ∈ b26, t1 = t2) := by
  rcases endgameBlock_ok v b26 h26 with
    ⟨hP, rfl⟩ | ⟨hP, hQ, rfl⟩ | ⟨hP, hQ, hR, rfl⟩ | ⟨hP, hQ, hR, hB, rfl⟩ |
    ⟨hP, hQ, hR, hB, hN, rfl⟩ | ⟨hP, hQ, hR, hB, hN, qr, hqrE, rfl⟩
  · have hcP := piece_endgame_true_cond v PAWN hP
    refine ⟨⟨fun _ => hcP, fun _ => by decide⟩,
      ⟨fun hm => absurd hm (by decide),
        fun hc => (endgameCond_excl v PAWN QUEEN (by decide) (by decide)
          (by decide) hcP hc).elim⟩,
      ⟨fun hm => absurd hm (by decide),
        fun hc => (endgameCond_excl v PAWN ROOK (by decide) (by decide)
          (by decide) hcP hc).elim⟩,
      ⟨fun hm => absurd hm (by decide),
        fun hc => (endgameCond_excl v PAWN BISHOP (by decide) (by decide)
          (by decide) hcP hc).elim⟩,
      ⟨fun hm => absurd hm (by decide),
        fun hc => (endgameCond_excl v PAWN KNIGHT (by decide) (by decide)
          (by decide) hcP hc).elim⟩,
      fun hm => absurd hm (by decide),
      fun t1 ht1 t2 ht2 => ?_⟩
    simp only [List.mem_singleton] at ht1 ht2
    rw [ht1, ht2]
  · have hnP := piece_endgame_false_cond v PAWN hP
    have hcQ := piece_endgame_true_cond v QUEEN hQ
    refine ⟨⟨fun hm => absurd hm (by decide), fun hc => (hnP hc).elim⟩,
      ⟨fun _ => hcQ, fun _ => by decide⟩,
      ⟨fun hm => absurd hm (by decide),
        fun hc => (endgameCond_excl v QUEEN ROOK (by decide) (by decide)
          (by decide) hcQ hc).elim⟩,
      ⟨fun hm => absurd hm (by decide),
        fun hc => (endgameCond_excl v QUEEN BISHOP (by decide) (by decide)
          (by decide) hcQ hc).elim⟩,
      ⟨fun hm => absurd hm (by decide),
        fun hc => (endgameCond_excl v QUEEN KNIGHT (by decide) (by decide)
          (by decide) hcQ hc).elim⟩,
      fun hm => absurd hm (by decide),
      fun t1 ht1 t2 ht2 => ?_⟩
    simp only [List.mem_singleton] at ht1 ht2
    rw [ht1, ht2]
  · have hnP := piece_endgame_false_cond v PAWN hP
    have hnQ := piece_endgame_false_cond v QUEEN hQ
    have hcR := piece_endgame_true_cond v ROOK hR
    refine ⟨⟨fun hm => absurd hm (by decide), fun hc => (hnP hc).elim⟩,
      ⟨fun hm => absurd hm (by decide), fun hc => (hnQ hc).elim⟩,
      ⟨fun _ => hcR, fun _ => by decide⟩,
      ⟨fun hm => absurd hm (by decide),
        fun hc => (endgameCond_excl v ROOK BISHOP (by decide) (by decide)
          (by decide) hcR hc).elim⟩,
      ⟨fun hm => absurd hm (by decide),
        fun hc => (endgameCond_excl v ROOK KNIGHT (by decide) (by decide)
          (by decide) hcR hc).elim⟩,
      fun hm => absurd hm (by decide),
      fun t1 ht1 t2 ht2 => ?_⟩
    simp only [List.mem_singleton] at ht1 ht2
    rw [ht1, ht2]
  · have hnP := piece_endgame_false_cond v PAWN hP
    have hnQ := piece_endgame_false_cond v QUEEN hQ
    have hnR := piece_endgame_false_cond v ROOK hR
    have hcB := piece_endgame_true_cond v BISHOP hB
    refine ⟨⟨fun hm => absurd hm (by decide), fun hc => (hnP hc).elim⟩,
      ⟨fun hm => absurd hm (by decide), fun hc => (hnQ hc).elim⟩,
      ⟨fun hm => absurd hm (by decide), fun hc => (hnR hc).elim⟩,
      ⟨fun _ => hcB, fun _ => by decide⟩,
      ⟨fun hm => absurd hm (by decide),
        fun hc => (endgameCond_excl v BISHOP KNIGHT (by decide) (by decide)
          (by decide) hcB hc).elim⟩,
      fun hm => absurd hm (by decide),
      fun t1 ht1 t2 ht2 => ?_⟩
    simp only [List.mem_singleton] at ht1 ht2
    rw [ht1, ht2]
  · have hnP := piece_endgame_false_cond v PAWN hP
    have hnQ := piece_endgame_false_cond v QUEEN hQ
    have hnR := piece_endgame_false_cond v ROOK hR
    have hnB := piece_endgame_false_cond v BISHOP hB
    have hcN := piece_endgame_true_cond v KNIGHT hN
    refine ⟨⟨fun hm => absurd hm (by decide), fun hc => (hnP hc).elim⟩,
      ⟨fun hm => absurd hm (by decide), fun hc => (hnQ hc).elim⟩,
      ⟨fun hm => absurd hm (by decide), fun hc => (hnR hc).elim⟩,
      ⟨fun hm => absurd hm (by decide), fun hc => (hnB hc).elim⟩,
      ⟨fun _ => hcN, fun _ => by decide⟩,
      fun hm => absurd hm (by decide),
      fun t1 ht1 t2 ht2 => ?_⟩
    simp only [List.mem_singleton] at ht1 ht2
    rw [ht1, ht2]
  · have hnP := piece_endgame_false_cond v PAWN hP
    have hnQ := piece_endgame_false_cond v QUEEN hQ
    have hnR := piece_endgame_false_cond v ROOK hR
    have hnB := piece_endgame_false_cond v BISHOP hB
    have hnN := piece_endgame_false_cond v KNIGHT hN
    refine ⟨⟨fun hm => absurd (mem_of_mem_boolTag hm) (by decide),
        fun hc => (hnP hc).elim⟩,
      ⟨fun hm => absurd (mem_of_mem_boolTag hm) (by decide),
        fun hc => (hnQ hc).elim⟩,
      ⟨fun hm => absurd (mem_of_mem_boolTag hm) (by decide),
        fun hc => (hnR hc).elim⟩,
      ⟨fun hm => absurd (mem_of_mem_boolTag hm) (by decide),
        fun hc => (hnB hc).elim⟩,
      ⟨fun hm => absurd (mem_of_mem_boolTag hm) (by decide),
        fun hc => (hnN hc).elim⟩,
      fun hm => ?_,
      fun t1 ht1 t2 ht2 => by
        rw [mem_of_mem_boolTag ht1, mem_of_mem_boolTag ht2]⟩
    have hq2 := (mem_boolTag.mp hm).1
    rw [hq2] at hqrE
    exact ⟨⟨hnP, hnQ, hnR, hnB, hnN⟩, queen_rook_true_cond v hqrE⟩

theorem cook_mem_endgame_iff (v : Variation) (tags : List String)
    (h : cook v = .ok tags) :
    ∃ b26, endgameBlock v = .ok b26 ∧
      ∀ s ∈ endgameTags, (s ∈ tags ↔ s ∈ b26) := by
  obtain ⟨b1, b3, b7, b8, b10, b11, b14, b15, b18, b25, b26, b27,
    h1, h3, h7, h8, h10, h11, h14, h15, h18, h25, h26, h27, htags⟩ :=
    cook_ok_parts v tags h
  obtain ⟨c3, hd3, he3⟩ := deflectionBlock_ok v b3 h3
  obtain ⟨c7, hd7, he7⟩ := defensiveBlock_ok v b7 h7
  obtain ⟨c8, hd8, he8⟩ := tagOfE_ok h8
  obtain ⟨c10, hd10, he10⟩ := tagOfE_ok h10
  obtain ⟨c11, hd11, he11⟩ := tagOfE_ok h11
  obtain ⟨c14, hd14, he14⟩ := tagOfE_ok h14
  obtain ⟨c15, hd15, he15⟩ := tagOfE_ok h15
  obtain ⟨c25, hd25, he25⟩ := tagOfE_ok h25
  subst he3 he7 he8 he10 he11 he14 he15 he25
  refine ⟨b26, h26, ?_⟩
  intro s hs
  have hcnt : tags.count s = b26.count s := by
    have hs6 : s = "pawnEndgame" ∨ s = "queenEndgame" ∨ s = "rookEndgame" ∨
        s = "bishopEndgame" ∨ s = "knightEndgame" ∨ s = "queenRookEndgame" := by
      simpa [endgameTags] using hs
    rcases hs6 with rfl | rfl | rfl | rfl | rfl | rfl <;>
    · rw [htags]
      simp only [cookAcc, List.append_assoc, List.count_append]
      rw [mateBlock_count_eq_zero v b1 h1 _ (by decide) (by decide) (by decide)
          (by decide),
        pinBlock_count_eq_zero v b18 h18 _ (by decide),
        sideAttackIf_count_eq_zero v _ b27 h27 _ (by decide) (by decide),
        lengthTag_count_eq_zero v _ (by decide)]
      simp [count_boolTag]
  rw [← count_pos_iff_mem, ← count_pos_iff_mem, hcnt]

/-- C7: at most one endgame tag of {pawnEndgame, queenEndgame, rookEndgame,
bishopEndgame, knightEndgame, queenRookEndgame} appears in `cook`'s output;
a single-piece-type tag appears iff, on each of the first two mainline
positions, besides kings and pawns only the named piece kind remains and at
least one such piece exists (`endgameCond`); and `queenRookEndgame` appears
only when every single-piece-type condition fails and both of those
positions contain, besides kings and pawns, only queens and rooks with at
least one of each (`qrCond`). -/
theorem c7_endgame_tags (v : Variation) (tags : List String)
    (h : cook v = .ok tags) :
    (∀ t1 ∈ endgameTags, ∀ t2 ∈ endgameTags, t1 ∈ tags → t2 ∈ tags → t1 = t2) ∧
    ("pawnEndgame" ∈ tags ↔ endgameCond v PAWN) ∧
    ("queenEndgame" ∈ tags ↔ endgameCond v QUEEN) ∧
    ("rookEndgame" ∈ tags ↔ endgameCond v ROOK) ∧
    ("bishopEndgame" ∈ tags ↔ endgameCond v BISHOP) ∧
    ("knightEndgame" ∈ tags ↔ endgameCond v KNIGHT) ∧
    ("queenRookEndgame" ∈ tags →
      (¬ endgameCond v PAWN ∧ ¬ endgameCond v QUEEN ∧ ¬ endgameCond v ROOK ∧
       ¬ endgameCond v BISHOP ∧ ¬ endgameCond v KNIGHT) ∧ qrCond v) := by
  obtain ⟨b26, h26, hmem⟩ := cook_mem_endgame_iff v tags h
  obtain ⟨iP, iQ, iR, iB, iN, iQR, iU⟩ := endgameBlock_single_iff v b26 h26
  refine ⟨?_, ?_, ?_, ?_, ?_, ?_, ?_⟩
  · intro t1 ht1 t2 ht2 hm1 hm2
    exact iU t1 ((hmem t1 ht1).mp hm1) t2 ((hmem t2 ht2).mp hm2)
  · exact (hmem "pawnEndgame" (by decide)).trans iP
  · exact (hmem "queenEndgame" (by decide)).trans iQ
  · exact (hmem "rookEndgame" (by decide)).trans iR
  · exact (hmem "bishopEndgame" (by decide)).trans iB
  · exact (hmem "knightEndgame" (by decide)).trans iN
  · intro hm
    exact iQR ((hmem "queenRookEndgame" (by decide)).mp hm)

/-- C7 witness: applied to the concrete two-ply example, whose tag list is
`["advantage", "oneMove"]`. -/
theorem c7_endgame_tags_witness :
    (∀ t1 ∈ endgameTags, ∀ t2 ∈ endgameTags,
      t1 ∈ (["advantage", "oneMove"] : List String) →
      t2 ∈ (["advantage", "oneMove"] : List String) → t1 = t2) ∧
    ("pawnEndgame" ∈ (["advantage", "oneMove"] : List String) ↔
      endgameCond exVar PAWN) ∧
    ("queenEndgame" ∈ (["advantage", "oneMove"] : List String) ↔
      endgameCond exVar QUEEN) ∧
    ("rookEndgame" ∈ (["advantage", "oneMove"] : List String) ↔
      endgameCond exVar ROOK) ∧
    ("bishopEndgame" ∈ (["advantage", "oneMove"] : List String) ↔
      endgameCond exVar BISHOP) ∧
    ("knightEndgame" ∈ (["advantage", "oneMove"] : List String) ↔
      endgameCond exVar KNIGHT) ∧
    ("queenRookEndgame" ∈ (["advantage", "oneMove"] : List String) →
      (¬ endgameCond exVar PAWN ∧ ¬ endgameCond exVar QUEEN ∧
       ¬ endgameCond exVar ROOK ∧ ¬ endgameCond exVar BISHOP ∧
       ¬ endgameCond exVar KNIGHT) ∧ qrCond exVar) :=
  c7_endgame_tags exVar ["advantage", "oneMove"] rfl

/-- C8 counterexample: the three-ply variation `oddVar` has a mainline of
odd length, yet `cook` returns a tag list normally instead of raising —
the source performs no length validation at all. -/
theorem c8_odd_length_counterexample :
    oddVar.mainline.length % 2 = 1 ∧
    cook oddVar = .ok ["equality", "long"] := ⟨rfl, rfl⟩

/-- C8 amended: `cook` raises only for mainlines shorter than two plies
(`defensive_move` indexes `mainline[-2]`, which raises `IndexError` there);
odd lengths `≥ 3` are not validated and can return a tag list normally. -/
theorem c8_short_mainline_error (v : Variation) (h : v.mainline.length < 2) :
    ∃ e, cook v = .error e := by
  have hd : defensive_move v = .error "IndexError" := by
    unfold defensive_move
    rw [if_pos h]
  have hb7 : defensiveBlock v = .error "IndexError" := by
    unfold defensiveBlock
    rw [hd]
    rfl
  unfold cook
  cases h1 : mateBlock v with
  | error e =>
    refine ⟨e, ?_⟩
    simp only [error_bind]
  | ok b1 =>
    simp only [ok_bind]
    cases h3 : deflectionBlock v with
    | error e =>
      refine ⟨e, ?_⟩
      simp only [error_bind]
    | ok b3 =>
      simp only [ok_bind]
      refine ⟨"IndexError", ?_⟩
      rw [hb7]
      simp only [error_bind]

/-- C8 amended witness: the empty-mainline variation errors. -/
theorem c8_short_mainline_error_witness :
    emptyVar.mainline.length < 2 ∧ ∃ e, cook emptyVar = .error e :=
  ⟨by decide, c8_short_mainline_error emptyVar (by decide)⟩

theorem isSome_eq_false_iff {α : Type} (o : Option α) :
    o.isSome = false ↔ o = none := by
  cases o <;> simp

theorem loopB_const_iff {α : Type} (q : α → Prop) [DecidablePred q] (c : Bool)
    (l : List α) :
    loopB (fun a => if q a then some c else none) false l = true ↔
    ((∃ a ∈ l, q a) ∧ c = true) := by
  induction l with
  | nil => simp [loopB]
  | cons a l ih =>
    by_cases hq : q a
    · simp [loopB, hq]
    · simp [loopB, hq, ih]

/-- `sacrifice` returns `ok c` with `c` true exactly when some measurement
on `diffs[1::2][1:]` has dropped by at least 2 from `diffs[0]` and no move
of `mainline[::2][1:]` — the opponent replies at even indices `≥ 2` — is a
promotion. -/
theorem sacrifice_ok_iff (v : Variation) (c : Bool) (h : sacrifice v = .ok c) :
    c = true ↔
    ((∃ i ∈ odd3Idx v, material_diff (nodeD v i).board v.pov -
        material_diff (nodeD v 0).board v.pov ≤ -2) ∧
      ∀ i ∈ evenDrop1Idx v, (nodeD v i).move.promotion = none) := by
  unfold sacrifice at h
  cases hm : v.mainline with
  | nil =>
    rw [hm] at h
    exact Except.noConfusion h
  | cons n rest =>
    rw [hm] at h
    have hloop : loopB (fun d =>
        if d - material_diff n.board v.pov ≤ -2 then
          some (!((evenDrop1Idx v).any (fun i => (nodeD v i).move.promotion.isSome)))
        else none) false
        (((oddIdxOf (List.map (fun nd => material_diff nd.board v.pov)
            (n :: rest)).length).drop 1).map
          (fun i => (List.map (fun nd => material_diff nd.board v.pov)
            (n :: rest)).getD i 0)) = c := except_pure_ok h
    have h0 : material_diff (nodeD v 0).board v.pov =
        material_diff n.board v.pov := by
      simp [nodeD, hm]
    have hlt : ∀ i ∈ odd3Idx v, i < v.mainline.length := by
      intro i hi
      have hi2 : i ∈ (oddIdx v).drop 1 := hi
      have hi3 : i ∈ oddIdx v := List.drop_subset 1 (oddIdx v) hi2
      unfold oddIdx oddIdxOf at hi3
      simp only [List.mem_filter, List.mem_range] at hi3
      exact hi3.1
    have hgd : ∀ i, i < v.mainline.length →
        (List.map (fun nd => material_diff nd.board v.pov) (n :: rest)).getD i 0 =
        material_diff (nodeD v i).board v.pov := by
      intro i hlt2
      have hlt3 : i < (n :: rest).length := by rw [← hm]; exact hlt2
      rw [List.getD_eq_getElem?_getD, List.getElem?_map,
        List.getElem?_eq_getElem hlt3]
      simp [nodeD, hm, List.getD_eq_getElem?_getD,
        List.getElem?_eq_getElem hlt3]
    have hL : (oddIdxOf (List.map (fun nd => material_diff nd.board v.pov)
        (n :: rest)).length).drop 1 = odd3Idx v := by
      simp [odd3Idx, oddIdx, hm]
    rw [← hloop, loopB_const_iff, hL, ← h0]
    refine and_congr ?_ ?_
    · constructor
      · rintro ⟨d, hd, hdrop⟩
        obtain ⟨i, hi, rfl⟩ := List.mem_map.mp hd
        refine ⟨i, hi, ?_⟩
        rw [← hgd i (hlt i hi)]
        exact hdrop
      · rintro ⟨i, hi, hdrop⟩
        refine ⟨(List.map (fun nd => material_diff nd.board v.pov)
          (n :: rest)).getD i 0, List.mem_map.mpr ⟨i, hi, rfl⟩, ?_⟩
        rw [hgd i (hlt i hi)]
        exact hdrop
    · simp only [Bool.not_eq_true', List.any_eq_false, Bool.not_eq_true,
        isSome_eq_false_iff]

/-- C5 counterexample: in the six-ply variation `sacVar` the pov move at
mainline index 1 is the promotion b8=Q, yet `cook` still emits the
`sacrifice` tag — the source tests promotions only on `mainline[::2][1:]`,
the opponent replies, not on the pov moves as the claim states. -/
theorem c5_sacrifice_counterexample :
    cook sacVar = .ok ["equality", "advancedPawn", "quietMove", "sacrifice",
      "promotion", "long"] ∧
    "sacrifice" ∈ (["equality", "advancedPawn", "quietMove", "sacrifice",
      "promotion", "long"] : List String) ∧
    1 ∈ oddIdx sacVar ∧
    (nodeD sacVar 1).move.promotion = some QUEEN :=
  ⟨rfl, by decide, by decide, rfl⟩

/-- C5 amended: the `sacrifice` tag is emitted iff pov's material balance
at some measurement in `diffs[1::2][1:]` is lower by at least 2 than the
balance after `mainline[0]`, and no move at an even mainline index `≥ 2`
(an opponent reply, `mainline[::2][1:]`) is a promotion; pov's own
promotions are not inspected. -/
theorem c5_sacrifice_characterization (v : Variation) (tags : List String)
    (h : cook v = .ok tags) :
    "sacrifice" ∈ tags ↔
    ((∃ i ∈ odd3Idx v, material_diff (nodeD v i).board v.pov -
        material_diff (nodeD v 0).board v.pov ≤ -2) ∧
      ∀ i ∈ evenDrop1Idx v, (nodeD v i).move.promotion = none) := by
  obtain ⟨b1, b3, b7, b8, b10, b11, b14, b15, b18, b25, b26, b27,
    h1, h3, h7, h8, h10, h11, h14, h15, h18, h25, h26, h27, htags⟩ :=
    cook_ok_parts v tags h
  obtain ⟨c3, hd3, he3⟩ := deflectionBlock_ok v b3 h3
  obtain ⟨c7, hd7, he7⟩ := defensiveBlock_ok v b7 h7
  obtain ⟨c8, hd8, he8⟩ := tagOfE_ok h8
  obtain ⟨c10, hd10, he10⟩ := tagOfE_ok h10
  obtain ⟨c11, hd11, he11⟩ := tagOfE_ok h11
  obtain ⟨c14, hd14, he14⟩ := tagOfE_ok h14
  obtain ⟨c15, hd15, he15⟩ := tagOfE_ok h15
  obtain ⟨c25, hd25, he25⟩ := tagOfE_ok h25
  subst he3 he7 he8 he10 he11 he14 he15 he25
  have hcnt : tags.count "sacrifice" = (if c8 = true then 1 else 0) := by
    rw [htags]
    simp only [cookAcc, List.append_assoc, List.count_append]
    rw [mateBlock_count_eq_zero v b1 h1 _ (by decide) (by decide) (by decide)
        (by decide),
      pinBlock_count_eq_zero v b18 h18 _ (by decide),
      endgameBlock_count_eq_zero v b26 h26 _ (by decide),
      sideAttackIf_count_eq_zero v _ b27 h27 _ (by decide) (by decide),
      lengthTag_count_eq_zero v _ (by decide)]
    simp [count_boolTag]
  rw [← count_pos_iff_mem, hcnt, zero_lt_ite_one]
  exact sacrifice_ok_iff v c8 hd8

/-- C5 amended witness: applied to the concrete six-ply example. -/
theorem c5_sacrifice_characterization_witness :
    "sacrifice" ∈ (["equality", "advancedPawn", "quietMove", "sacrifice",
      "promotion", "long"] : List String) ↔
    ((∃ i ∈ odd3Idx sacVar, material_diff (nodeD sacVar i).board sacVar.pov -
        material_diff (nodeD sacVar 0).board sacVar.pov ≤ -2) ∧
      ∀ i ∈ evenDrop1Idx sacVar, (nodeD sacVar i).move.promotion = none) :=
  c5_sacrifice_characterization sacVar
    ["equality", "advancedPawn", "quietMove", "sacrifice", "promotion", "long"]
    rfl

/-- Every position of the variation: the root and each mainline node. -/
def allBoards (v : Variation) : List Board := v.game :: v.mainline.map Node.board

/-- Both kings are on the board (python-chess guarantees this for any
legal position; the detectors assert it via `board.king`). -/
def boardKingsOk (b : Board) : Prop :=
  (b.king WHITE).isSome ∧ (b.king BLACK).isSome

/-- Every square reported by the attack oracle is occupied (true of
python-chess, whose attackers are pieces; `pin_prevents_escape` and
`smothered_mate` assert it via `board.piece_at`). -/
def boardAttackersOk (b : Board) : Prop :=
  ∀ c sq, ∀ a ∈ b.attackers c sq, (b.piece_at a).isSome

/-- The consequences of the specification's well-formedness invariant that
the detectors' assertions presuppose: an even mainline of length at least
2, both kings and a sound attack oracle on every position, and each played
move departing from an occupied square. -/
def WF (v : Variation) : Prop :=
  2 ≤ v.mainline.length ∧ v.mainline.length % 2 = 0 ∧
  (∀ b ∈ allBoards v, boardKingsOk b ∧ boardAttackersOk b) ∧
  (∀ i, i < v.mainline.length → (moved v i).isSome)

theorem mem_oddIdx_lt {v : Variation} {i : Nat} (h : i ∈ oddIdx v) :
    i < v.mainline.length := by
  unfold oddIdx oddIdxOf at h
  simp only [List.mem_filter, List.mem_range] at h
  exact h.1

theorem mem_odd3_lt {v : Variation} {i : Nat} (h : i ∈ odd3Idx v) :
    i < v.mainline.length := by
  have h2 : i ∈ (oddIdx v).drop 1 := h
  exact mem_oddIdx_lt (List.drop_subset 1 (oddIdx v) h2)

theorem getLast?_mem {α : Type} : ∀ {l : List α} {a : α},
    l.getLast? = some a → a ∈ l := by
  intro l
  induction l with
  | nil => intro a h; exact Option.noConfusion h
  | cons x xs ih =>
    intro a h
    cases xs with
    | nil =>
      simp only [List.getLast?_singleton, Option.some.injEq] at h
      rw [h]
      exact List.mem_singleton_self a
    | cons y ys =>
      rw [List.getLast?_cons_cons] at h
      exact List.mem_cons_of_mem x (ih h)

theorem endBoard_mem (v : Variation) : endBoard v ∈ allBoards v := by
  unfold endBoard allBoards
  cases hgl : v.mainline.getLast? with
  | none => exact List.mem_cons_self _ _
  | some n =>
    exact List.mem_cons_of_mem _ (List.mem_map.mpr ⟨n, getLast?_mem hgl, rfl⟩)

theorem nodeD_board_mem {v : Variation} {i : Nat} (h : i < v.mainline.length) :
    (nodeD v i).board ∈ allBoards v := by
  unfold nodeD allBoards
  refine List.mem_cons_of_mem _ (List.mem_map.mpr ⟨v.mainline.getD i default, ?_, rfl⟩)
  rw [List.getD_eq_getElem?_getD, List.getElem?_eq_getElem h]
  exact List.getElem_mem h

theorem xor_lt_64 {s : Nat} (m : Nat) (h : s < 64) (hm : m < 64) :
    s ^^^ m < 64 := by
  have h6 : s < 2 ^ 6 := h
  have hm6 : m < 2 ^ 6 := hm
  exact Nat.xor_lt_two_pow h6 hm6

theorem xor_xor_self (s m : Nat) : (s ^^^ m) ^^^ m = s := by
  rw [Nat.xor_assoc, Nat.xor_self, Nat.xor_zero]

theorem king_mirror_isSome (b : Board) (c : Bool)
    (h : (b.king (!c)).isSome) : (b.mirror.king c).isSome := by
  rw [Board.king, List.find?_isSome] at h ⊢
  obtain ⟨s, hs, hp⟩ := h
  rw [List.mem_range] at hs
  rw [beq_iff_eq] at hp
  refine ⟨s ^^^ 56, List.mem_range.mpr (xor_lt_64 56 hs (by decide)), ?_⟩
  show (b.mirror.piece_at (s ^^^ 56) == some ⟨KING, c⟩) = true
  simp only [Board.mirror, xor_xor_self, hp, Option.map_some', Bool.not_not,
    beq_self_eq_true]

theorem king_flip_isSome (b : Board) (c : Bool)
    (h : (b.king c).isSome) : (b.apply_flip_horizontal.king c).isSome := by
  rw [Board.king, List.find?_isSome] at h ⊢
  obtain ⟨s, hs, hp⟩ := h
  rw [List.mem_range] at hs
  rw [beq_iff_eq] at hp
  refine ⟨s ^^^ 7, List.mem_range.mpr (xor_lt_64 7 hs (by decide)), ?_⟩
  show (b.apply_flip_horizontal.piece_at (s ^^^ 7) == some ⟨KING, c⟩) = true
  simp only [Board.apply_flip_horizontal, xor_xor_self, hp, beq_self_eq_true]

theorem kings_ok_all {b : Board} (h : boardKingsOk b) (c : Bool) :
    (b.king c).isSome := by
  cases c
  · exact h.2
  · exact h.1

theorem kingE_ok {b : Board} {c : Bool} (h : (b.king c).isSome) :
    ∃ k, kingE b c = .ok k := by
  obtain ⟨k, hk⟩ := Option.isSome_iff_exists.mp h
  exact ⟨k, by rw [kingE, hk]⟩

theorem bind_isOk {α β : Type} {x : Except String α} {f : α → Except String β}
    (hx : ∃ u, x = .ok u) (hf : ∀ u, ∃ w, f u = .ok w) :
    ∃ w, (x >>= f) = .ok w := by
  obtain ⟨u, hu⟩ := hx
  rw [hu, ok_bind]
  exact hf u

theorem bindE_isOk {α β : Type} {x : Except String α} {f : α → Except String β}
    (hx : ∃ u, x = .ok u) (hf : ∀ u, ∃ w, f u = .ok w) :
    ∃ w, x.bind f = .ok w := by
  obtain ⟨u, hu⟩ := hx
  rw [hu]
  exact hf u

theorem nodeE_isOk {v : Variation} {i : Nat} (h : i < v.mainline.length) :
    ∃ n, nodeE v i = .ok n := by
  unfold nodeE
  cases hg : v.mainline.get? i with
  | some n => exact ⟨n, rfl⟩
  | none =>
    rw [List.get?_eq_getElem?, List.getElem?_eq_none_iff] at hg
    omega

theorem endNodeE_isOk (v : Variation) (hL : 2 ≤ v.mainline.length) :
    ∃ n, endNodeE v = .ok n := by
  unfold endNodeE
  cases hgl : v.mainline.getLast? with
  | some n => exact ⟨n, rfl⟩
  | none =>
    rw [List.getLast?_eq_none_iff] at hgl
    rw [hgl] at hL
    exact absurd hL (by decide)

theorem ite_isOk {α : Type} {c : Prop} [Decidable c] {x y : Except String α}
    (hx : ∃ a, x = .ok a) (hy : ∃ a, y = .ok a) :
    ∃ a, (if c then x else y) = .ok a := by
  split
  · exact hx
  · exact hy

theorem sacrifice_isOk (v : Variation) (hL : 2 ≤ v.mainline.length) :
    ∃ r, sacrifice v = .ok r := by
  unfold sacrifice
  cases hm : v.mainline with
  | nil => rw [hm] at hL; exact absurd hL (by decide)
  | cons n rest => exact ⟨_, rfl⟩

theorem defensive_move_isOk (v : Variation) (hL : 2 ≤ v.mainline.length) :
    ∃ r, defensive_move v = .ok r := by
  unfold defensive_move
  rw [if_neg (by omega : ¬ v.mainline.length < 2)]
  apply ite_isOk
  · exact ⟨_, rfl⟩
  · apply ite_isOk
    · exact ⟨_, rfl⟩
    · apply ite_isOk
      · exact ⟨_, rfl⟩
      · exact ⟨_, rfl⟩

theorem hanging_piece_isOk (v : Variation) (hL : 2 ≤ v.mainline.length) :
    ∃ r, hanging_piece v = .ok r := by
  unfold hanging_piece
  obtain ⟨n1, hn1⟩ := @nodeE_isOk v 1 (by omega)
  obtain ⟨n0, hn0⟩ := @nodeE_isOk v 0 (by omega)
  simp only [hn1, hn0, ok_bind]
  apply ite_isOk
  · exact ⟨_, rfl⟩
  · cases hcap : n0.board.piece_at n1.move.to_square with
    | none => exact ⟨_, rfl⟩
    | some cap =>
      apply ite_isOk
      · apply ite_isOk
        · apply ite_isOk
          · exact ⟨_, rfl⟩
          · apply ite_isOk
            · exact ⟨_, rfl⟩
            · apply ite_isOk
              · exact ⟨_, rfl⟩
              · exact ⟨_, rfl⟩
        · exact ⟨_, rfl⟩
      · exact ⟨_, rfl⟩

theorem fork_isOk (v : Variation)
    (hM : ∀ i, i < v.mainline.length → (moved v i).isSome) :
    ∃ r, fork v = .ok r := by
  unfold fork
  apply loopE_ok_of_body_ok
  intro i hi
  have hlt : i < v.mainline.length :=
    mem_oddIdx_lt (List.dropLast_subset (oddIdx v) hi)
  obtain ⟨mp, hmp⟩ := Option.isSome_iff_exists.mp (hM i hlt)
  dsimp only
  apply ite_isOk
  · apply ite_isOk
    · exact ⟨_, rfl⟩
    · apply bind_isOk
      · refine foldlM_ok_of_body_ok ?_ 0
        intro acc ps hps
        dsimp only
        apply ite_isOk
        · exact ⟨_, rfl⟩
        · rw [hmp]
          exact ⟨_, rfl⟩
      · intro nb
        apply ite_isOk
        · exact ⟨_, rfl⟩
        · exact ⟨_, rfl⟩
  · exact ⟨_, rfl⟩

theorem deflection_isOk (v : Variation)
    (hM : ∀ i, i < v.mainline.length → (moved v i).isSome) :
    ∃ r, deflection v = .ok r := by
  unfold deflection
  apply loopE_ok_of_body_ok
  intro i hi
  have hlt : i < v.mainline.length := mem_odd3_lt hi
  have hlt2 : i - 2 < v.mainline.length := lt_of_le_of_lt (Nat.sub_le i 2) hlt
  obtain ⟨mp, hmp⟩ := Option.isSome_iff_exists.mp (hM i hlt)
  obtain ⟨mp2, hmp2⟩ := Option.isSome_iff_exists.mp (hM (i - 2) hlt2)
  dsimp only
  apply ite_isOk
  · cases hcap : (parentBoard v i).piece_at (nodeD v i).move.to_square with
    | none =>
      cases hppc : (parentBoard v (i - 2)).piece_at
          (nodeD v (i - 2)).move.to_square with
      | none =>
        apply ite_isOk
        · exact ⟨_, rfl⟩
        · exact ⟨_, rfl⟩
      | some ppc =>
        rw [hmp2]
        apply ite_isOk
        · exact ⟨_, rfl⟩
        · exact ⟨_, rfl⟩
    | some cp =>
      rw [hmp]
      apply ite_isOk
      · exact ⟨_, rfl⟩
      · cases hppc : (parentBoard v (i - 2)).piece_at
            (nodeD v (i - 2)).move.to_square with
        | none =>
          apply ite_isOk
          · exact ⟨_, rfl⟩
          · exact ⟨_, rfl⟩
        | some ppc =>
          rw [hmp2]
          apply ite_isOk
          · exact ⟨_, rfl⟩
          · exact ⟨_, rfl⟩
  · exact ⟨_, rfl⟩

theorem exposed_king_isOk (v : Variation) (hL : 2 ≤ v.mainline.length)
    (hKA : ∀ b ∈ allBoards v, boardKingsOk b ∧ boardAttackersOk b) :
    ∃ r, exposed_king v = .ok r := by
  unfold exposed_king
  obtain ⟨n0, hn0⟩ := @nodeE_isOk v 0 (by omega)
  have hn0m : n0.board ∈ allBoards v := by
    refine List.mem_cons_of_mem _ (List.mem_map.mpr ⟨n0, ?_, rfl⟩)
    exact List.get?_mem (nodeE_ok hn0)
  have hks := (hKA n0.board hn0m).1
  simp only [hn0, ok_bind]
  apply bind_isOk
  · cases hpov : v.pov
    · exact kingE_ok (king_mirror_isSome n0.board false hks.1)
    · exact kingE_ok (kings_ok_all hks false)
  · intro king
    apply ite_isOk
    · exact ⟨_, rfl⟩
    · apply ite_isOk
      · exact ⟨_, rfl⟩
      · exact ⟨_, rfl⟩

theorem skewer_isOk (v : Variation)
    (hM : ∀ i, i < v.mainline.length → (moved v i).isSome) :
    ∃ r, skewer v = .ok r := by
  unfold skewer
  apply loopE_ok_of_body_ok
  intro i hi
  have hlt : i < v.mainline.length := mem_odd3_lt hi
  have hlt1 : i - 1 < v.mainline.length := lt_of_le_of_lt (Nat.sub_le i 1) hlt
  obtain ⟨mp1, hmp1⟩ := Option.isSome_iff_exists.mp (hM (i - 1) hlt1)
  dsimp only
  cases hcap : (nodeD v (i - 1)).board.piece_at (nodeD v i).move.to_square with
  | none => exact ⟨_, rfl⟩
  | some capture =>
    apply ite_isOk
    · apply ite_isOk
      · exact ⟨_, rfl⟩
      · rw [hmp1]
        apply ite_isOk
        · exact ⟨_, rfl⟩
        · exact ⟨_, rfl⟩
    · exact ⟨_, rfl⟩

theorem pin_prevents_escape_isOk (v : Variation)
    (hKA : ∀ b ∈ allBoards v, boardKingsOk b ∧ boardAttackersOk b) :
    ∃ r, pin_prevents_escape v = .ok r := by
  unfold pin_prevents_escape
  apply loopE_ok_of_body_ok
  intro i hi
  have hA := (hKA _ (nodeD_board_mem (mem_oddIdx_lt hi))).2
  dsimp only
  apply bind_isOk
  · apply loopE_ok_of_body_ok
    intro sp hsp
    dsimp only
    apply ite_isOk
    · exact ⟨_, rfl⟩
    · cases hpin : (nodeD v i).board.pin sp.2.color sp.1 with
      | none => exact ⟨_, rfl⟩
      | some pin_dir =>
        apply bind_isOk
        · apply loopE_ok_of_body_ok
          intro a ha
          dsimp only
          apply ite_isOk
          · obtain ⟨p, hp⟩ := Option.isSome_iff_exists.mp (hA v.pov sp.1 a ha)
            rw [hp]
            apply ite_isOk
            · exact ⟨_, rfl⟩
            · apply ite_isOk
              · exact ⟨_, rfl⟩
              · exact ⟨_, rfl⟩
          · exact ⟨_, rfl⟩
        · intro r
          apply ite_isOk
          · exact ⟨_, rfl⟩
          · exact ⟨_, rfl⟩
  · intro found
    apply ite_isOk
    · exact ⟨_, rfl⟩
    · exact ⟨_, rfl⟩

theorem capturing_defender_isOk (v : Variation)
    (hM : ∀ i, i < v.mainline.length → (moved v i).isSome) :
    ∃ r, capturing_defender v = .ok r := by
  unfold capturing_defender
  apply loopE_ok_of_body_ok
  intro i hi
  have hlt : i < v.mainline.length := mem_odd3_lt hi
  obtain ⟨mp, hmp⟩ := Option.isSome_iff_exists.mp (hM i hlt)
  dsimp only
  apply ite_isOk
  · apply ite_isOk
    · cases hdef : (parentBoard v (i - 2)).piece_at
          (nodeD v (i - 2)).move.to_square with
      | none => exact ⟨_, rfl⟩
      | some defender =>
        apply ite_isOk
        · exact ⟨_, rfl⟩
        · exact ⟨_, rfl⟩
    · exact ⟨_, rfl⟩
  · cases hcap : (parentBoard v i).piece_at (nodeD v i).move.to_square with
    | none => exact ⟨_, rfl⟩
    | some cap =>
      apply ite_isOk
      · rw [hmp]
        apply ite_isOk
        · apply ite_isOk
          · cases hdef : (parentBoard v (i - 2)).piece_at
                (nodeD v (i - 2)).move.to_square with
            | none => exact ⟨_, rfl⟩
            | some defender =>
              apply ite_isOk
              · exact ⟨_, rfl⟩
              · exact ⟨_, rfl⟩
          · exact ⟨_, rfl⟩
        · exact ⟨_, rfl⟩
      · exact ⟨_, rfl⟩

theorem side_attack_isOk (v : Variation) (cf : Nat) (kf : List Nat) (np : Nat)
    (hL : 2 ≤ v.mainline.length) :
    ∃ r, side_attack v cf kf np = .ok r := by
  unfold side_attack
  obtain ⟨n0, hn0⟩ := @nodeE_isOk v 0 (by omega)
  simp only [hn0, ok_bind]
  apply ite_isOk
  · exact ⟨_, rfl⟩
  · exact ⟨_, rfl⟩

theorem piece_endgame_isOk (v : Variation) (pt : PieceType)
    (hL : 2 ≤ v.mainline.length) : ∃ r, piece_endgame v pt = .ok r := by
  unfold piece_endgame
  obtain ⟨n0, hn0⟩ := @nodeE_isOk v 0 (by omega)
  obtain ⟨n1, hn1⟩ := @nodeE_isOk v 1 (by omega)
  simp only [hn0, hn1, ok_bind]
  exact ⟨_, rfl⟩

theorem queen_rook_endgame_isOk (v : Variation) (hL : 2 ≤ v.mainline.length) :
    ∃ r, queen_rook_endgame v = .ok r := by
  unfold queen_rook_endgame
  obtain ⟨n0, hn0⟩ := @nodeE_isOk v 0 (by omega)
  obtain ⟨n1, hn1⟩ := @nodeE_isOk v 1 (by omega)
  simp only [hn0, hn1, ok_bind]
  exact ⟨_, rfl⟩

theorem smothered_mate_isOk (v : Variation)
    (hKA : ∀ b ∈ allBoards v, boardKingsOk b ∧ boardAttackersOk b) :
    ∃ r, smothered_mate v = .ok r := by
  unfold smothered_mate
  obtain ⟨hks, hA⟩ := hKA _ (endBoard_mem v)
  obtain ⟨k, hk⟩ := kingE_ok (kings_ok_all hks (!v.pov))
  simp only [hk, ok_bind]
  apply loopE_ok_of_body_ok
  intro cs hcs
  have hsome : ((endBoard v).piece_at cs).isSome := by
    unfold Board.checkers at hcs
    cases hkk : (endBoard v).king (endBoard v).turn with
    | none => rw [hkk] at hcs; exact absurd hcs (List.not_mem_nil cs)
    | some kk => rw [hkk] at hcs; exact hA _ _ cs hcs
  obtain ⟨p, hp⟩ := Option.isSome_iff_exists.mp hsome
  rw [hp]
  apply ite_isOk
  · apply ite_isOk
    · exact ⟨_, rfl⟩
    · exact ⟨_, rfl⟩
  · exact ⟨_, rfl⟩

theorem back_rank_mate_isOk (v : Variation) (hL : 2 ≤ v.mainline.length)
    (hKA : ∀ b ∈ allBoards v, boardKingsOk b ∧ boardAttackersOk b) :
    ∃ r, back_rank_mate v = .ok r := by
  unfold back_rank_mate
  obtain ⟨n, hn⟩ := endNodeE_isOk v hL
  obtain ⟨k, hk⟩ := kingE_ok (kings_ok_all (hKA _ (endBoard_mem v)).1 (!v.pov))
  simp only [hn, hk, ok_bind]
  apply ite_isOk
  · apply ite_isOk
    · exact ⟨_, rfl⟩
    · exact ⟨_, rfl⟩
  · exact ⟨_, rfl⟩

theorem anastasia_mate_isOk (v : Variation) (hL : 2 ≤ v.mainline.length)
    (hKA : ∀ b ∈ allBoards v, boardKingsOk b ∧ boardAttackersOk b) :
    ∃ r, anastasia_mate v = .ok r := by
  unfold anastasia_mate
  obtain ⟨n, hn⟩ := endNodeE_isOk v hL
  have hks := (hKA _ (endBoard_mem v)).1
  obtain ⟨k, hk⟩ := kingE_ok (kings_ok_all hks (!v.pov))
  simp only [hn, hk, ok_bind]
  apply ite_isOk
  · apply ite_isOk
    · cases hfc : (square_file k != 0) with
      | false =>
        rw [if_neg (by simp [hfc])]
        apply bind_isOk
        · exact kingE_ok (kings_ok_all hks (!v.pov))
        · intro k2
          cases hb1 : (endBoard v).piece_at (k2 + 1) with
          | none => exact ⟨_, rfl⟩
          | some blocker =>
            apply ite_isOk
            · cases hb2 : (endBoard v).piece_at (k2 + 3) with
              | none => exact ⟨_, rfl⟩
              | some knight => exact ⟨_, rfl⟩
            · exact ⟨_, rfl⟩
      | true =>
        rw [if_pos (by simp [hfc])]
        apply bind_isOk
        · exact kingE_ok (king_flip_isSome _ _ (kings_ok_all hks (!v.pov)))
        · intro k2
          cases hb1 : (endBoard v).apply_flip_horizontal.piece_at (k2 + 1) with
          | none => exact ⟨_, rfl⟩
          | some blocker =>
            apply ite_isOk
            · cases hb2 : (endBoard v).apply_flip_horizontal.piece_at (k2 + 3) with
              | none => exact ⟨_, rfl⟩
              | some knight => exact ⟨_, rfl⟩
            · exact ⟨_, rfl⟩
    · exact ⟨_, rfl⟩
  · exact ⟨_, rfl⟩

theorem hook_mate_isOk (v : Variation) (hL : 2 ≤ v.mainline.length)
    (hKA : ∀ b ∈ allBoards v, boardKingsOk b ∧ boardAttackersOk b) :
    ∃ r, hook_mate v = .ok r := by
  unfold hook_mate
  obtain ⟨n, hn⟩ := endNodeE_isOk v hL
  obtain ⟨k, hk⟩ := kingE_ok (kings_ok_all (hKA _ (endBoard_mem v)).1 (!v.pov))
  simp only [hn, hk, ok_bind]
  apply ite_isOk
  · exact ⟨_, rfl⟩
  · exact ⟨_, rfl⟩

theorem arabian_mate_isOk (v : Variation) (hL : 2 ≤ v.mainline.length)
    (hKA : ∀ b ∈ allBoards v, boardKingsOk b ∧ boardAttackersOk b) :
    ∃ r, arabian_mate v = .ok r := by
  unfold arabian_mate
  obtain ⟨n, hn⟩ := endNodeE_isOk v hL
  obtain ⟨k, hk⟩ := kingE_ok (kings_ok_all (hKA _ (endBoard_mem v)).1 (!v.pov))
  simp only [hn, hk, ok_bind]
  apply ite_isOk
  · exact ⟨_, rfl⟩
  · exact ⟨_, rfl⟩

theorem boden_isOk (v : Variation) (hL : 2 ≤ v.mainline.length)
    (hKA : ∀ b ∈ allBoards v, boardKingsOk b ∧ boardAttackersOk b) :
    ∃ r, boden_or_double_bishop_mate v = .ok r := by
  unfold boden_or_double_bishop_mate
  obtain ⟨n, hn⟩ := endNodeE_isOk v hL
  obtain ⟨k, hk⟩ := kingE_ok (kings_ok_all (hKA _ (endBoard_mem v)).1 (!v.pov))
  simp only [hn, hk, ok_bind]
  cases hbs : (endBoard v).pieces BISHOP v.pov with
  | nil => exact ⟨_, rfl⟩
  | cons b0 t =>
    cases t with
    | nil => exact ⟨_, rfl⟩
    | cons b1 tl =>
      apply ite_isOk
      · apply ite_isOk
        · exact ⟨_, rfl⟩
        · exact ⟨_, rfl⟩
      · exact ⟨_, rfl⟩

theorem dovetail_mate_isOk (v : Variation) (hL : 2 ≤ v.mainline.length)
    (hKA : ∀ b ∈ allBoards v, boardKingsOk b ∧ boardAttackersOk b) :
    ∃ r, dovetail_mate v = .ok r := by
  unfold dovetail_mate
  obtain ⟨n, hn⟩ := endNodeE_isOk v hL
  obtain ⟨k, hk⟩ := kingE_ok (kings_ok_all (hKA _ (endBoard_mem v)).1 (!v.pov))
  simp only [hn, hk, ok_bind]
  apply ite_isOk
  · exact ⟨_, rfl⟩
  · apply ite_isOk
    · exact ⟨_, rfl⟩
    · exact ⟨_, rfl⟩

theorem matePattern_isOk (v : Variation) (hL : 2 ≤ v.mainline.length)
    (hKA : ∀ b ∈ allBoards v, boardKingsOk b ∧ boardAttackersOk b) :
    ∃ r, matePattern v = .ok r := by
  unfold matePattern
  apply bindE_isOk (smothered_mate_isOk v hKA)
  intro s
  apply ite_isOk
  · exact ⟨_, rfl⟩
  · apply bindE_isOk (back_rank_mate_isOk v hL hKA)
    intro br
    apply ite_isOk
    · exact ⟨_, rfl⟩
    · apply bindE_isOk (anastasia_mate_isOk v hL hKA)
      intro an
      apply ite_isOk
      · exact ⟨_, rfl⟩
      · apply bindE_isOk (hook_mate_isOk v hL hKA)
        intro hkm
        apply ite_isOk
        · exact ⟨_, rfl⟩
        · apply bindE_isOk (arabian_mate_isOk v hL hKA)
          intro ar
          apply ite_isOk
          · exact ⟨_, rfl⟩
          · apply bindE_isOk (boden_isOk v hL hKA)
            intro bd
            cases bd with
            | some found => exact ⟨_, rfl⟩
            | none =>
              apply bindE_isOk (dovetail_mate_isOk v hL hKA)
              intro dv
              apply ite_isOk
              · exact ⟨_, rfl⟩
              · exact ⟨_, rfl⟩

theorem mateBlock_isOk (v : Variation) (hL : 2 ≤ v.mainline.length)
    (hKA : ∀ b ∈ allBoards v, boardKingsOk b ∧ boardAttackersOk b) :
    ∃ r, mateBlock v = .ok r := by
  unfold mateBlock
  cases hmi : mate_in v with
  | none => exact ⟨_, rfl⟩
  | some mt =>
    apply bindE_isOk (matePattern_isOk v hL hKA)
    intro pat
    exact ⟨_, rfl⟩

theorem deflectionBlock_isOk (v : Variation)
    (hM : ∀ i, i < v.mainline.length → (moved v i).isSome) :
    ∃ r, deflectionBlock v = .ok r := by
  unfold deflectionBlock
  apply bind_isOk (deflection_isOk v hM)
  intro d
  exact ⟨_, rfl⟩

theorem defensiveBlock_isOk (v : Variation) (hL : 2 ≤ v.mainline.length) :
    ∃ r, defensiveBlock v = .ok r := by
  unfold defensiveBlock
  apply bind_isOk (defensive_move_isOk v hL)
  intro dm
  exact ⟨_, rfl⟩

theorem tagOfE_isOk {x : Except String Bool} (t : String)
    (hx : ∃ b, x = .ok b) : ∃ r, tagOfE x t = .ok r := by
  unfold tagOfE
  apply bind_isOk hx
  intro b
  exact ⟨_, rfl⟩

theorem pinBlock_isOk (v : Variation)
    (hKA : ∀ b ∈ allBoards v, boardKingsOk b ∧ boardAttackersOk b) :
    ∃ r, pinBlock v = .ok r := by
  unfold pinBlock
  apply ite_isOk
  · exact ⟨_, rfl⟩
  · apply bind_isOk (pin_prevents_escape_isOk v hKA)
    intro e
    exact ⟨_, rfl⟩

theorem endgameBlock_isOk (v : Variation) (hL : 2 ≤ v.mainline.length) :
    ∃ r, endgameBlock v = .ok r := by
  unfold endgameBlock
  apply bind_isOk (piece_endgame_isOk v PAWN hL)
  intro p
  apply ite_isOk
  · exact ⟨_, rfl⟩
  · apply bind_isOk (piece_endgame_isOk v QUEEN hL)
    intro q
    apply ite_isOk
    · exact ⟨_, rfl⟩
    · apply bind_isOk (piece_endgame_isOk v ROOK hL)
      intro r
      apply ite_isOk
      · exact ⟨_, rfl⟩
      · apply bind_isOk (piece_endgame_isOk v BISHOP hL)
        intro bi
        apply ite_isOk
        · exact ⟨_, rfl⟩
        · apply bind_isOk (piece_endgame_isOk v KNIGHT hL)
          intro kn
          apply ite_isOk
          · exact ⟨_, rfl⟩
          · apply bind_isOk (queen_rook_endgame_isOk v hL)
            intro qr
            exact ⟨_, rfl⟩

theorem sideAttackBlock_isOk (v : Variation) (hL : 2 ≤ v.mainline.length) :
    ∃ r, sideAttackBlock v = .ok r := by
  unfold sideAttackBlock
  apply bind_isOk (side_attack_isOk v 7 [6, 7] 20 hL)
  intro k
  apply ite_isOk
  · exact ⟨_, rfl⟩
  · apply bind_isOk (side_attack_isOk v 0 [0, 1, 2] 18 hL)
    intro q
    exact ⟨_, rfl⟩

theorem sideAttackIf_isOk (v : Variation) (acc : List String)
    (hL : 2 ≤ v.mainline.length) : ∃ r, sideAttackIf v acc = .ok r := by
  unfold sideAttackIf
  apply ite_isOk
  · exact sideAttackBlock_isOk v hL
  · exact ⟨_, rfl⟩

/-- C4: `cook` is total on well-formed variations.  `WF` captures the
consequences of the specification's well-formedness invariant that the
code's assertions and partial lookups presuppose (even mainline of length
at least 2, both kings present on every position, attack oracles that only
report occupied squares, and every played move departing from an occupied
square); alternation and per-move legality imply these but are not
otherwise consumed by `cook`, so totality over `WF` covers every
well-formed variation.  No error (assert / IndexError / KeyError /
TypeError) is reachable: a tag list is always returned. -/
theorem c4_totality (v : Variation) (h : WF v) : ∃ tags, cook v = .ok tags := by
  obtain ⟨hL, hEven, hKA, hM⟩ := h
  unfold cook
  apply bind_isOk (mateBlock_isOk v hL hKA)
  intro b1
  apply bind_isOk (deflectionBlock_isOk v hM)
  intro b3
  apply bind_isOk (defensiveBlock_isOk v hL)
  intro b7
  apply bind_isOk (tagOfE_isOk _ (sacrifice_isOk v hL))
  intro b8
  apply bind_isOk (tagOfE_isOk _ (fork_isOk v hM))
  intro b10
  apply bind_isOk (tagOfE_isOk _ (hanging_piece_isOk v hL))
  intro b11
  apply bind_isOk (tagOfE_isOk _ (exposed_king_isOk v hL hKA))
  intro b14
  apply bind_isOk (tagOfE_isOk _ (skewer_isOk v hM))
  intro b15
  apply bind_isOk (pinBlock_isOk v hKA)
  intro b18
  apply bind_isOk (tagOfE_isOk _ (capturing_defender_isOk v hM))
  intro b25
  apply bind_isOk (endgameBlock_isOk v hL)
  intro b26
  apply bind_isOk (sideAttackIf_isOk v _ hL)
  intro b27
  exact ⟨_, rfl⟩

theorem wf_exVar : WF exVar := by
  refine ⟨by decide, by decide, ?_, ?_⟩
  · intro b hb
    simp only [allBoards, exVar, List.map_cons, List.map_nil, List.mem_cons,
      List.not_mem_nil, or_false] at hb
    rcases hb with rfl | rfl | rfl <;>
      exact ⟨⟨by decide, by decide⟩,
        fun c sq a ha => absurd ha (List.not_mem_nil a)⟩
  · intro i hi
    have h2 : i < 2 := by simpa [exVar] using hi
    interval_cases i
    · decide
    · decide

/-- C4 witness: the concrete two-ply example is well-formed and `cook`
returns a tag list on it. -/
theorem c4_totality_witness : WF exVar ∧ ∃ tags, cook exVar = .ok tags :=
  ⟨wf_exVar, c4_totality exVar wf_exVar⟩

/-- C10 witness: applied to the concrete two-ply example. -/
theorem c10_interference_defensive_naming_witness :
    "selfInterference" ∉ ["advantage", "oneMove"] ∧
    "checkEscape" ∉ ["advantage", "oneMove"] ∧
    (["advantage", "oneMove"] : List String).count "interference" ≤ 1 ∧
    (["advantage", "oneMove"] : List String).count "defensiveMove" ≤ 1 ∧
    ("interference" ∈ (["advantage", "oneMove"] : List String) ↔
      (self_interference exVar = true ∨ interference exVar = true)) ∧
    ("defensiveMove" ∈ (["advantage", "oneMove"] : List String) ↔
      (defensive_move exVar = .ok true ∨ check_escape exVar = true)) :=
  c10_interference_defensive_naming exVar ["advantage", "oneMove"] rfl

end Cook
